import Mathlib

/-!
Verification development for the `implement-interpreter` repository
(a Rust tree-walking interpreter for the Monkey language).

The Rust sources are shallowly embedded:
* trait objects (`Box<dyn Expression>`, `Box<dyn Statement>`, `Box<dyn Node>`,
  `Box<dyn Object>`) become inductive types;
* `Rc<RefCell<Environment>>` becomes an index (`EnvId`) into an explicit
  heap of frames, threaded through evaluation (weak `outer` links always
  upgrade in this model; no frame is ever dropped during a run);
* fallible code and panics become `Option`; the evaluator additionally
  takes a fuel parameter (`Nat`) because the source language permits
  unbounded recursion through closures — `none` also covers fuel
  exhaustion, which never occurs in the concrete runs proved below;
* `i64` becomes `Int` (with an explicit `mod 2^64` cast where the source
  casts to `usize`).

The `token` module, the lexer and the parser of the repository are not
present under `src/` in their current form (the files there are stale
copies that no longer compile against the `ast`/`evaluator` modules and
lack the string/bracket/colon/macro tokens which `tests/lexer.rs` and
`tests/parser/` exercise); those components are modelled from the
specification and are marked `Modelled from the spec:` below.
-/

namespace Monkey

/-- Modelled from the spec: the `TokenType` enumeration of the repository's
current `token` module is missing from `src/` (the `token.rs` present is a
stale string-constant version without `String`, bracket, `Colon` or `Macro`
kinds, which `tests/lexer.rs` requires).  Spec §6 lists the closed
enumeration of token kinds. -/
inductive TokenType where
  | illegal
  | eof
  | ident
  | int
  | string
  | assign
  | plus
  | minus
  | bang
  | asterisk
  | slash
  | lessThan
  | greaterThan
  | comma
  | semicolon
  | colon
  | leftParen
  | rightParen
  | leftBrace
  | rightBrace
  | leftBracket
  | rightBracket
  | equal
  | notEqual
  | function
  | letKw
  | trueKw
  | falseKw
  | ifKw
  | elseKw
  | returnKw
  | macroKw
deriving DecidableEq, Repr

/-- Token structure: a kind together with the verbatim source lexeme
(`Token { token_type, literal }`). -/
structure Token where
  tokenType : TokenType
  literal : String
deriving DecidableEq, Repr

/-- Identifier node fields (`Identifier { token, value }` from
`src/src/ast/expressions.rs`). -/
structure Ident where
  tok : Token
  value : String
deriving DecidableEq, Repr

mutual

/-- Expression nodes, one constructor per `impl Expression` struct in
`src/src/ast/expressions.rs` (plus `ExpressionStatement`, which the source
also marks as an expression but which we keep on the statement side, as the
parser only ever produces it as a statement). -/
inductive Expr where
  | identifier (id : Ident)
  | integerLiteral (tok : Token) (value : Int)
  | boolean (tok : Token) (value : Bool)
  | stringLiteral (tok : Token) (value : String)
  | prefixExpression (tok : Token) (operator : String) (right : Expr)
  | infixExpression (tok : Token) (left : Expr) (operator : String) (right : Expr)
  | ifExpression (tok : Token) (condition : Expr) (consequence : Block)
      (alternative : Option Block)
  | functionLiteral (tok : Token) (parameters : List Ident) (body : Block)
  | callExpression (tok : Token) (function : Expr) (arguments : ExprList)
  | arrayLiteral (tok : Token) (elements : ExprList)
  | indexExpression (tok : Token) (left : Expr) (index : Expr)
  | hashLiteral (tok : Token) (pairs : PairList)
  | macroLiteral (tok : Token) (parameters : List Ident) (body : Block)

/-- Argument/element lists (`Vec<Box<dyn Expression>>`), as a nested
inductive so that all recursions stay structural. -/
inductive ExprList where
  | nil
  | cons (hd : Expr) (tl : ExprList)

/-- Key/value pair sequence of a `HashLiteral`.  The source stores the
pairs in a `HashMap<ByAddress<Box<dyn Expression>>, Box<dyn Expression>>`;
a `PairList` value represents that map together with one concrete
iteration order (a Rust `HashMap` has no canonical order — iteration
depends on the hasher's random state and the boxes' addresses, so the same
program text can give rise to different `PairList` orders). -/
inductive PairList where
  | nil
  | cons (key : Expr) (value : Expr) (tl : PairList)

/-- Statement nodes, one constructor per `impl Statement` struct in
`src/src/ast/statements.rs`. -/
inductive Stmt where
  | letStatement (tok : Token) (name : Ident) (value : Expr)
  | returnStatement (tok : Token) (returnValue : Expr)
  | expressionStatement (tok : Token) (expression : Expr)
  | blockStatement (block : Block)

/-- A `BlockStatement { token, statements }`. -/
inductive Block where
  | mk (tok : Token) (statements : StmtList)

/-- Statement lists (`Vec<Box<dyn Statement>>`). -/
inductive StmtList where
  | nil
  | cons (hd : Stmt) (tl : StmtList)

end

/-- Program root: an ordered sequence of statements
(`src/src/ast/program.rs`). -/
structure Program where
  statements : StmtList

/-- A `&dyn Node` / `Box<dyn Node>` trait object: a program, a statement or
an expression (`BlockStatement` travels as a statement). -/
inductive Node where
  | program (p : Program)
  | stmt (s : Stmt)
  | expr (e : Expr)

/-- Append for statement lists. -/
def StmtList.append : StmtList → StmtList → StmtList
  | .nil, l => l
  | .cons s tl, l => .cons s (tl.append l)

/-- Convert a statement list to a `List`. -/
def StmtList.toList : StmtList → List Stmt
  | .nil => []
  | .cons s tl => s :: tl.toList

/-- Convert an expression list to a `List`. -/
def ExprList.toList : ExprList → List Expr
  | .nil => []
  | .cons e tl => e :: tl.toList

/-- Length of an expression list (`Vec::len`). -/
def ExprList.length : ExprList → Nat
  | .nil => 0
  | .cons _ tl => tl.length + 1

/-- Convert a pair list to a `List` of pairs. -/
def PairList.toList : PairList → List (Expr × Expr)
  | .nil => []
  | .cons k v tl => (k, v) :: tl.toList

mutual

/-- The `string()` method of expressions, translated clause by clause from
`src/src/ast/expressions.rs`. -/
def Expr.string : Expr → String
  | .identifier id => id.value
  | .integerLiteral _ value => toString value
  | .boolean _ value => toString value
  | .stringLiteral _ value => value
  | .prefixExpression _ operator right =>
      "(" ++ operator ++ right.string ++ ")"
  | .infixExpression _ left operator right =>
      "(" ++ left.string ++ " " ++ operator ++ " " ++ right.string ++ ")"
  | .ifExpression tok condition consequence alternative =>
      let base := tok.literal ++ " " ++ condition.string ++ " " ++ consequence.string
      match alternative with
      | some alt => base ++ "else " ++ alt.string
      | none => base
  | .functionLiteral tok parameters body =>
      tok.literal ++ "(" ++ String.intercalate ", " (parameters.map Ident.value)
        ++ ") " ++ body.string
  | .callExpression _ function arguments =>
      function.string ++ "(" ++ String.intercalate ", " arguments.strings ++ ")"
  | .arrayLiteral _ elements =>
      "[" ++ String.intercalate ", " elements.strings ++ "]"
  | .indexExpression _ left index =>
      "(" ++ left.string ++ "[" ++ index.string ++ "])"
  | .hashLiteral _ pairs =>
      "\x7b" ++ String.intercalate ", " pairs.entryStrings ++ "\x7d"
  | .macroLiteral tok parameters body =>
      tok.literal ++ "(" ++ String.intercalate ", " (parameters.map Ident.value)
        ++ ")" ++ body.string

/-- The `string()` forms of the members of an expression list. -/
def ExprList.strings : ExprList → List String
  | .nil => []
  | .cons e tl => e.string :: tl.strings

/-- One `"{key}: {value}"` entry per pair, in iteration order — the `map`
inside `HashLiteral::string` in `src/src/ast/expressions.rs`. -/
def PairList.entryStrings : PairList → List String
  | .nil => []
  | .cons k v tl => (k.string ++ ": " ++ v.string) :: tl.entryStrings

/-- The `string()` method of statements
(`src/src/ast/statements.rs`). -/
def Stmt.string : Stmt → String
  | .letStatement tok name value =>
      tok.literal ++ " " ++ name.value ++ " = " ++ value.string ++ ";"
  | .returnStatement tok returnValue =>
      tok.literal ++ " " ++ returnValue.string ++ ";"
  | .expressionStatement _ expression => expression.string
  | .blockStatement block => block.string

/-- `BlockStatement::string`: concatenation of the member statements'
strings. -/
def Block.string : Block → String
  | .mk _ statements => statements.concatStrings

/-- Concatenate the `string()` forms of a statement list. -/
def StmtList.concatStrings : StmtList → String
  | .nil => ""
  | .cons s tl => s.string ++ tl.concatStrings

end

/-- `Program::string`: concatenation of the statements' strings
(`src/src/ast/program.rs`). -/
def Program.string (p : Program) : String :=
  p.statements.concatStrings

/-- Environment identity: an index into the heap of frames, standing for an
`Rc<RefCell<Environment>>`. -/
abbrev EnvId := Nat

/-- The `ObjectType` tag enumeration from `src/src/evaluator/object.rs`
(the snapshot's enum stops at `Hash`; the `Quote` and `Macro` objects used
by `src/src/quote.rs` and `src/src/evaluator/macro_expansion.rs` belong to
the same enumeration per spec §3, so they are included here). -/
inductive ObjectType where
  | integer
  | boolean
  | null
  | returnValue
  | error
  | function
  | string
  | builtin
  | array
  | hash
  | quote
  | macroObj
deriving DecidableEq, Repr

/-- Names of the process-wide built-in functions
(`BUILTINS` in `src/src/evaluator/object.rs`). -/
inductive BuiltinName where
  | len
  | first
  | last
  | rest
  | push
  | puts
deriving DecidableEq, Repr

/-- A `HashKey { object_type, value }` (`src/src/evaluator/object.rs`).
The `value` field is the `u64` digest/identity, modelled as `Nat`. -/
structure HashKey where
  objectType : ObjectType
  value : Nat
deriving DecidableEq, Repr

/-- Runtime values: one constructor per `impl Object` struct in
`src/src/evaluator/object.rs` (with `Quote`/`Macro` added per spec §3, as
their declarations predate the snapshot's `object.rs`).  A `Function`'s
captured `Rc<RefCell<Environment>>` is an `EnvId`; a `Hash`'s
`HashMap<HashKey, HashPair>` is an association list keyed by `HashKey`
(inserting replaces the entry with the same key). -/
inductive Obj where
  | integer (value : Int)
  | boolean (value : Bool)
  | null
  | returnValue (value : Obj)
  | error (message : String)
  | function (parameters : List Ident) (body : Block) (env : EnvId)
  | string (value : String)
  | builtin (name : BuiltinName)
  | array (elements : List Obj)
  | hash (pairs : List (HashKey × Obj × Obj))
  | quote (node : Node)
  | macroObj (parameters : List Ident) (body : Block) (env : EnvId)

/-- The `object_type()` method. -/
def Obj.objectType : Obj → ObjectType
  | .integer _ => .integer
  | .boolean _ => .boolean
  | .null => .null
  | .returnValue _ => .returnValue
  | .error _ => .error
  | .function _ _ _ => .function
  | .string _ => .string
  | .builtin _ => .builtin
  | .array _ => .array
  | .hash _ => .hash
  | .quote _ => .quote
  | .macroObj _ _ _ => .macroObj

/-- Rendering of an `ObjectType` by the `Debug` derive, as used inside the
evaluator's error messages (`format!("... {:?}", object_type())`). -/
def ObjectType.name : ObjectType → String
  | .integer => "Integer"
  | .boolean => "Boolean"
  | .null => "Null"
  | .returnValue => "ReturnValue"
  | .error => "Error"
  | .function => "Function"
  | .string => "String"
  | .builtin => "Builtin"
  | .array => "Array"
  | .hash => "Hash"
  | .quote => "Quote"
  | .macroObj => "Macro"

/-- The `is_error` helper of `src/src/evaluator/eval.rs` on a present
object: true exactly when the object's type tag is `Error`. -/
def Obj.isError (o : Obj) : Bool :=
  o.objectType == .error

/-- The `is_truthy` function of `src/src/evaluator/eval.rs` (lines
231-241) on a present object: `Boolean::False` is the only falsy value —
in particular `Null` is truthy. -/
def isTruthy : Obj → Bool
  | .boolean false => false
  | .boolean true => true
  | .null => true
  | _ => true

/-- `eval_bang_operator_expression` (`src/src/evaluator/eval.rs` lines
295-301): `False` on truthy input, `True` otherwise. -/
def evalBangOperatorExpression (right : Obj) : Obj :=
  if isTruthy right then .boolean false else .boolean true

/-- `eval_minus_prefix_operator_expression`: negate an `Integer`, error on
anything else. -/
def evalMinusPrefixOperatorExpression (right : Obj) : Obj :=
  if right.objectType ≠ .integer then
    .error ("unknown operator: -" ++ right.objectType.name)
  else
    match right with
    | .integer value => .integer (-value)
    | _ => .null

/-- `eval_prefix_expression`: dispatch on the operator text. -/
def evalPrefixExpression (operator : String) (right : Obj) : Obj :=
  match operator with
  | "!" => evalBangOperatorExpression right
  | "-" => evalMinusPrefixOperatorExpression right
  | _ => .error ("unknown operator: " ++ operator ++ right.objectType.name)

/-- `eval_integer_infix_expression`.  `/` is the host `i64` division
(truncating); the Rust code panics on division by zero where Lean's `Int`
division returns zero — no claim below touches that case. -/
def evalIntegerInfixExpression (left : Int) (operator : String) (right : Int) : Obj :=
  match operator with
  | "+" => .integer (left + right)
  | "-" => .integer (left - right)
  | "*" => .integer (left * right)
  | "/" => .integer (Int.tdiv left right)
  | "<" => .boolean (left < right)
  | ">" => .boolean (right < left)
  | "==" => .boolean (left == right)
  | "!=" => .boolean (left != right)
  | _ => .error ("unknown operator: Integer " ++ operator ++ " Integer")

/-- `eval_boolean_infix_expression`: only `==` and `!=`. -/
def evalBooleanInfixExpression (left : Bool) (operator : String) (right : Bool) : Obj :=
  match operator with
  | "==" => .boolean (left == right)
  | "!=" => .boolean (left != right)
  | _ => .error ("unknown operator: Boolean " ++ operator ++ " Boolean")

/-- `eval_string_infix_expression`: only `+` (concatenation). -/
def evalStringInfixExpression (left : String) (operator : String) (right : String) : Obj :=
  match operator with
  | "+" => .string (left ++ right)
  | _ => .error ("unknown operator: String " ++ operator ++ " String")

/-- `eval_infix_expression` (`src/src/evaluator/eval.rs`): dispatch on the
operand type tags, `type mismatch` when they differ, `unknown operator`
otherwise. -/
def evalInfixExpression (left : Obj) (operator : String) (right : Obj) : Obj :=
  match left, right with
  | .integer l, .integer r => evalIntegerInfixExpression l operator r
  | .boolean l, .boolean r => evalBooleanInfixExpression l operator r
  | .string l, .string r => evalStringInfixExpression l operator r
  | l, r =>
      if l.objectType ≠ r.objectType then
        .error ("type mismatch: " ++ l.objectType.name ++ " " ++ operator
          ++ " " ++ r.objectType.name)
      else
        .error ("unknown operator: " ++ l.objectType.name ++ " " ++ operator
          ++ " " ++ r.objectType.name)

/-- Digest of a string's bytes for `StringObject::hash_key`.  The source
uses `DefaultHasher` (SipHash with unspecified keys); any fixed
deterministic function of the byte sequence is a faithful model — claims
below never depend on concrete digest values. -/
def stringHashValue (s : String) : Nat :=
  s.toUTF8.toList.foldl (fun acc b => acc * 31 + b.toNat + 1) 7

/-- The `Hashable::hash_key` implementations of
`src/src/evaluator/object.rs`: `Integer` uses the value reinterpreted as
`u64`, `Boolean` uses 1/0, `String` uses the digest; other object types
are not hashable. -/
def Obj.hashKey : Obj → Option HashKey
  | .integer value => some ⟨.integer, (value % (2 ^ 64)).toNat⟩
  | .boolean value => some ⟨.boolean, if value then 1 else 0⟩
  | .string value => some ⟨.string, stringHashValue value⟩
  | _ => none

/-- The `index.value as usize` cast in `eval_index_expression`: a `u64`
reinterpretation of the `i64` value (64-bit host). -/
def i64AsUsize (value : Int) : Nat :=
  (value % (2 ^ 64)).toNat

/-- `eval_hash_index_expression` (`src/src/evaluator/eval.rs` lines
399-425): hash the index, look it up, `Null` on a miss. -/
def evalHashIndexExpression (pairs : List (HashKey × Obj × Obj)) (index : Obj) : Obj :=
  match index.hashKey with
  | none => .error ("unusable as hash key: " ++ index.objectType.name)
  | some key =>
      match pairs.lookup key with
      | some pair => pair.2
      | none => .null

/-- `eval_index_expression` (`src/src/evaluator/eval.rs` lines 145-172):
array indexing with the `as usize` cast and the
`len() <= cast || value < 0` bounds check, hash lookup, error for other
left types. -/
def evalIndexExpression (left : Obj) (index : Obj) : Obj :=
  match left, index with
  | .array elements, .integer value =>
      if elements.length ≤ i64AsUsize value ∨ value < 0 then .null
      else elements.getD (i64AsUsize value) .null
  | .hash pairs, index => evalHashIndexExpression pairs index
  | left, _ => .error ("index operator not supported: " ++ left.objectType.name)

/-- The arity-error message shared by the built-ins
(`format!("wrong number of arguments: got={}, want=...")`). -/
def wrongArgCount (got : Nat) (want : String) : String :=
  "wrong number of arguments: got=" ++ toString got ++ ", want=" ++ want

/-- The `len` built-in (`object_len` in `src/src/evaluator/object.rs`):
byte length of a string (UTF-8, `String::len`), element count of an
array. -/
def objectLen (objects : List Obj) : Obj :=
  if objects.length ≠ 1 then .error (wrongArgCount objects.length "1")
  else
    match objects.headD .null with
    | .string value => .integer value.utf8ByteSize
    | .array elements => .integer elements.length
    | first => .error ("argument to `len` not supported, got " ++ first.objectType.name)

/-- The `first` built-in (`array_first`). -/
def arrayFirst (objects : List Obj) : Obj :=
  if objects.length ≠ 1 then .error (wrongArgCount objects.length "1")
  else
    match objects.headD .null with
    | .array elements => elements.headD .null
    | first => .error ("argument to `first` must be Array, got " ++ first.objectType.name)

/-- The `last` built-in (`array_last`; its type-error message says
`last`). -/
def arrayLast (objects : List Obj) : Obj :=
  if objects.length ≠ 1 then .error (wrongArgCount objects.length "1")
  else
    match objects.headD .null with
    | .array elements => (elements.getLast?).getD .null
    | first => .error ("argument to `last` must be Array, got " ++ first.objectType.name)

/-- The `rest` built-in (`array_rest`; its type-error message also says
`last` in the source). -/
def arrayRest (objects : List Obj) : Obj :=
  if objects.length ≠ 1 then .error (wrongArgCount objects.length "1")
  else
    match objects.headD .null with
    | .array elements => .array (elements.drop 1)
    | first => .error ("argument to `last` must be Array, got " ++ first.objectType.name)

/-- The `push` built-in (`array_push` in `src/src/evaluator/object.rs`
lines 166-189).  Note: the arity check is `objects.len() != 2` but the
error message the source formats is `want=1` (a copy of the unary
built-ins' message), and the type-error message says `last`. -/
def arrayPush (objects : List Obj) : Obj :=
  if objects.length ≠ 2 then .error (wrongArgCount objects.length "1")
  else
    match objects.headD .null with
    | .array elements => .array (elements ++ [objects.getD 1 .null])
    | first => .error ("argument to `last` must be Array, got " ++ first.objectType.name)

/-- The `puts` built-in: prints each argument's `inspect()` (output is
outside this model) and returns `Null`. -/
def putsBuiltin (_objects : List Obj) : Obj :=
  .null

/-- Invoke a built-in on an argument list (the `Builtin.func` closures). -/
def applyBuiltin : BuiltinName → List Obj → Obj
  | .len, objects => objectLen objects
  | .first, objects => arrayFirst objects
  | .last, objects => arrayLast objects
  | .rest, objects => arrayRest objects
  | .push, objects => arrayPush objects
  | .puts, objects => putsBuiltin objects

/-- The process-wide `BUILTINS` table: name → `Builtin` object. -/
def builtinsLookup : String → Option Obj
  | "len" => some (.builtin .len)
  | "first" => some (.builtin .first)
  | "last" => some (.builtin .last)
  | "rest" => some (.builtin .rest)
  | "push" => some (.builtin .push)
  | "puts" => some (.builtin .puts)
  | _ => none

/-- An `Environment` frame (`src/src/evaluator/environment.rs`): a
name→object store (`HashMap<String, Box<dyn Object>>`, modelled as an
association list with replacing insert) and an optional `outer` link.  The
source's `outer` is a `Weak` reference; in this model upgrading always
succeeds (no frame is dropped during a run). -/
structure Frame where
  store : List (String × Obj)
  outer : Option EnvId

/-- The heap of environment frames; an `EnvId` is an index into it.
Allocating (`Rc::new(RefCell::new(env))`) appends a frame. -/
abbrev Heap := List Frame

/-- Insert into a frame's store, replacing any existing binding for the
name and returning the previous value — `HashMap::insert` semantics. -/
def storeInsert (name : String) (value : Obj) :
    List (String × Obj) → List (String × Obj) × Option Obj
  | [] => ([(name, value)], none)
  | (k, v) :: tl =>
      if k = name then ((k, value) :: tl, some v)
      else
        let (tl', old) := storeInsert name value tl
        ((k, v) :: tl', old)

/-- `Environment::get` with an explicit gas bound on the `outer` walk (the
source walk terminates because `outer` chains are acyclic; gas is always
sufficient when it exceeds the heap size). -/
def envGetAux : Nat → Heap → EnvId → String → Option Obj
  | 0, _, _, _ => none
  | gas + 1, heap, env, name => do
      let frame ← heap.get? env
      match frame.store.lookup name with
      | some value => some value
      | none =>
          match frame.outer with
          | some outer => envGetAux gas heap outer name
          | none => none

/-- `Environment::get`: search the current frame, then walk `outer`; the
returned object is a clone. -/
def envGet (heap : Heap) (env : EnvId) (name : String) : Option Obj :=
  envGetAux (heap.length + 1) heap env name

/-- `Environment::set`: insert into the current frame only, returning the
updated heap together with `HashMap::insert`'s result — the value
previously bound to the name in that frame, if any. -/
def envSet (heap : Heap) (env : EnvId) (name : String) (value : Obj) :
    Heap × Option Obj :=
  match heap.get? env with
  | none => (heap, none)
  | some frame =>
      let (store', old) := storeInsert name value frame.store
      (heap.set env { frame with store := store' }, old)

/-- Allocate a fresh frame (`Environment::new_enclosed` followed by
`Rc::new(RefCell::new(..))`), returning the new heap and the new id. -/
def envAlloc (heap : Heap) (frame : Frame) : Heap × EnvId :=
  (heap ++ [frame], heap.length)

/-- A `modify` rewriter.  The source's `modifier: &impl Fn(Box<dyn Node>)
-> Box<dyn Node>` may carry interior mutability (the `quote` closure
evaluates in an environment through a `RefCell`), so the model threads the
heap; `none` models a panic inside the closure. -/
abbrev ModFn := Node → Heap → Option (Node × Heap)

/-- The `node_to_statement_helper` of `src/src/ast/modify.rs`: accept the
four statement types (including `BlockStatement`), panic (`none`) on
anything else. -/
def toStmtHelper : Node → Option Stmt
  | .stmt s => some s
  | _ => none

/-- The `node_to_expression_helper` of `src/src/ast/modify.rs`: accept the
expression types, panic (`none`) on anything else. -/
def toExprHelper : Node → Option Expr
  | .expr e => some e
  | _ => none

/-- The `downcast::<Identifier>().unwrap()` used for function
parameters. -/
def toIdentHelper : Node → Option Ident
  | .expr (.identifier id) => some id
  | _ => none

/-- The `downcast::<BlockStatement>().unwrap()` used for `if` branches and
function bodies. -/
def toBlockHelper : Node → Option Block
  | .stmt (.blockStatement b) => some b
  | _ => none

/-- Function-parameter slots: `*ident = *modify(ident,
modifier).downcast::<Identifier>().unwrap()`.  `modify` on an `Identifier`
node matches no branch, so it reduces to applying `f`. -/
def modifyParamSlots (f : ModFn) : List Ident → Heap → Option (List Ident × Heap)
  | [], h => some ([], h)
  | id :: tl, h => do
      let (n, h1) ← f (.expr (.identifier id)) h
      let id' ← toIdentHelper n
      let (tl', h2) ← modifyParamSlots f tl h1
      pure (id' :: tl', h2)

mutual

/-- The in-place effect of `modify(node, f)` on `node`'s child slots — the
branch body of `modify` in `src/src/ast/modify.rs` (lines 16-97),
excluding the final `modifier(clone(node))` application.  A stored child
slot is `node_to_expression_helper(modify(child, modifier))`: recurse into
the child's own children, apply `f`, downcast back (inlined at each use so
the recursion stays structural).  Node kinds without a branch
(`CallExpression`, `MacroLiteral`, identifiers and literals) are returned
unchanged. -/
def modifyChildrenExpr (f : ModFn) : Expr → Heap → Option (Expr × Heap)
  | .identifier id, h => some (.identifier id, h)
  | .integerLiteral tok value, h => some (.integerLiteral tok value, h)
  | .boolean tok value, h => some (.boolean tok value, h)
  | .stringLiteral tok value, h => some (.stringLiteral tok value, h)
  | .prefixExpression tok operator right, h => do
      let (r, h1) ← modifyChildrenExpr f right h
      let (nr, h2) ← f (.expr r) h1
      let right' ← toExprHelper nr
      pure (.prefixExpression tok operator right', h2)
  | .infixExpression tok left operator right, h => do
      let (l, h1) ← modifyChildrenExpr f left h
      let (nl, h2) ← f (.expr l) h1
      let left' ← toExprHelper nl
      let (r, h3) ← modifyChildrenExpr f right h2
      let (nr, h4) ← f (.expr r) h3
      let right' ← toExprHelper nr
      pure (.infixExpression tok left' operator right', h4)
  | .indexExpression tok left index, h => do
      let (l, h1) ← modifyChildrenExpr f left h
      let (nl, h2) ← f (.expr l) h1
      let left' ← toExprHelper nl
      let (i, h3) ← modifyChildrenExpr f index h2
      let (ni, h4) ← f (.expr i) h3
      let index' ← toExprHelper ni
      pure (.indexExpression tok left' index', h4)
  | .ifExpression tok condition consequence alternative, h => do
      let (c, h1) ← modifyChildrenExpr f condition h
      let (nc, h2) ← f (.expr c) h1
      let condition' ← toExprHelper nc
      let (consequence', h3) ← modifyChildrenBlock f consequence h2
      let (nb, h4) ← f (.stmt (.blockStatement consequence')) h3
      let _ ← toBlockHelper nb
      match alternative with
      | none => pure (.ifExpression tok condition' consequence' none, h4)
      | some alt => do
          let (alt', h5) ← modifyChildrenBlock f alt h4
          let (na, h6) ← f (.stmt (.blockStatement alt')) h5
          let altStored ← toBlockHelper na
          pure (.ifExpression tok condition' consequence' (some altStored), h6)
  | .functionLiteral tok parameters body, h => do
      let (parameters', h1) ← modifyParamSlots f parameters h
      let (body', h2) ← modifyChildrenBlock f body h1
      let (nb, h3) ← f (.stmt (.blockStatement body')) h2
      let bodyStored ← toBlockHelper nb
      pure (.functionLiteral tok parameters' bodyStored, h3)
  | .callExpression tok function arguments, h =>
      some (.callExpression tok function arguments, h)
  | .arrayLiteral tok elements, h => do
      let (elements', h1) ← modifyExprListInPlace f elements h
      pure (.arrayLiteral tok elements', h1)
  | .hashLiteral tok pairs, h => do
      let (pairs', h1) ← modifyPairListInPlace f pairs h
      pure (.hashLiteral tok pairs', h1)
  | .macroLiteral tok parameters body, h =>
      some (.macroLiteral tok parameters body, h)

/-- The `ArrayLiteral` branch: `modify(element, modifier)` is called on
each element but its result is discarded — the slot keeps the child with
its own children rewritten, without `f` applied on top (the call to `f`
still runs for its effects). -/
def modifyExprListInPlace (f : ModFn) : ExprList → Heap → Option (ExprList × Heap)
  | .nil, h => some (.nil, h)
  | .cons e tl, h => do
      let (e', h1) ← modifyChildrenExpr f e h
      let (_, h2) ← f (.expr e') h1
      let (tl', h3) ← modifyExprListInPlace f tl h2
      pure (.cons e' tl', h3)

/-- The `HashLiteral` branch: each key and value is cloned and
`modify`-ed with the result discarded, then inserted into the rebuilt
map. -/
def modifyPairListInPlace (f : ModFn) : PairList → Heap → Option (PairList × Heap)
  | .nil, h => some (.nil, h)
  | .cons k v tl, h => do
      let (k', h1) ← modifyChildrenExpr f k h
      let (_, h2) ← f (.expr k') h1
      let (v', h3) ← modifyChildrenExpr f v h2
      let (_, h4) ← f (.expr v') h3
      let (tl', h5) ← modifyPairListInPlace f tl h4
      pure (.cons k' v' tl', h5)

/-- The branch bodies for statements.  The `LetStatement` branch rewrites
only the value (the name identifier is not visited); the `BlockStatement`
branch rewrites the statement slots. -/
def modifyChildrenStmt (f : ModFn) : Stmt → Heap → Option (Stmt × Heap)
  | .letStatement tok name value, h => do
      let (v, h1) ← modifyChildrenExpr f value h
      let (nv, h2) ← f (.expr v) h1
      let value' ← toExprHelper nv
      pure (.letStatement tok name value', h2)
  | .returnStatement tok returnValue, h => do
      let (v, h1) ← modifyChildrenExpr f returnValue h
      let (nv, h2) ← f (.expr v) h1
      let returnValue' ← toExprHelper nv
      pure (.returnStatement tok returnValue', h2)
  | .expressionStatement tok expression, h => do
      let (e, h1) ← modifyChildrenExpr f expression h
      let (ne, h2) ← f (.expr e) h1
      let expression' ← toExprHelper ne
      pure (.expressionStatement tok expression', h2)
  | .blockStatement b, h => do
      let (b', h1) ← modifyChildrenBlock f b h
      pure (.blockStatement b', h1)

/-- The `BlockStatement` branch: each statement slot receives
`node_to_statement_helper(modify(statement, modifier))`. -/
def modifyChildrenBlock (f : ModFn) : Block → Heap → Option (Block × Heap)
  | .mk tok statements, h => do
      let (statements', h1) ← modifyStmtListSlots f statements h
      pure (.mk tok statements', h1)

/-- Stored statement slots (used by the `Program` and `BlockStatement`
branches). -/
def modifyStmtListSlots (f : ModFn) : StmtList → Heap → Option (StmtList × Heap)
  | .nil, h => some (.nil, h)
  | .cons s tl, h => do
      let (s', h1) ← modifyChildrenStmt f s h
      let (n, h2) ← f (.stmt s') h1
      let s'' ← toStmtHelper n
      let (tl', h3) ← modifyStmtListSlots f tl h2
      pure (.cons s'' tl', h3)

end

/-- The `modify` entry point of `src/src/ast/modify.rs`: run the branch
body for the node, then return `modifier` applied to the (child-rewritten)
node. -/
def modifyNode (f : ModFn) (n : Node) (h : Heap) : Option (Node × Heap) :=
  match n with
  | .program p => do
      let (sl, h1) ← modifyStmtListSlots f p.statements h
      f (.program ⟨sl⟩) h1
  | .stmt s => do
      let (s', h1) ← modifyChildrenStmt f s h
      f (.stmt s') h1
  | .expr e => do
      let (e', h1) ← modifyChildrenExpr f e h
      f (.expr e') h1

/-- The `token_literal()` of an expression (each node returns its token's
literal). -/
def Expr.tokenLiteral : Expr → String
  | .identifier id => id.tok.literal
  | .integerLiteral tok _ => tok.literal
  | .boolean tok _ => tok.literal
  | .stringLiteral tok _ => tok.literal
  | .prefixExpression tok _ _ => tok.literal
  | .infixExpression tok _ _ _ => tok.literal
  | .ifExpression tok _ _ _ => tok.literal
  | .functionLiteral tok _ _ => tok.literal
  | .callExpression tok _ _ => tok.literal
  | .arrayLiteral tok _ => tok.literal
  | .indexExpression tok _ _ => tok.literal
  | .hashLiteral tok _ => tok.literal
  | .macroLiteral tok _ _ => tok.literal

end Monkey


namespace Monkey

/-- `eval_identifier` (`src/src/evaluator/eval.rs` lines 129-143): look the
name up in the environment chain, then in the `BUILTINS` table, else an
`identifier not found` error. -/
def evalIdentifierObj (h : Heap) (env : EnvId) (name : String) : Obj :=
  match envGet h env name with
  | some o => o
  | none =>
      match builtinsLookup name with
      | some b => b
      | none => .error ("identifier not found: " ++ name)

/-- `unwrap_return_value`: strip one `ReturnValue` wrapper. -/
def unwrapReturnValue : Obj → Obj
  | .returnValue value => value
  | o => o

/-- `is_unquote_call` (`src/src/quote.rs`): a `CallExpression` whose callee
prints as `unquote`. -/
def isUnquoteCall : Node → Bool
  | .expr (.callExpression _ function _) => function.string == "unquote"
  | _ => false

/-- `convert_object_to_ast_node` (`src/src/quote.rs`): `Integer` and
`Boolean` objects become freshly minted literal nodes, a `Quote` yields its
contained node (cloned); anything else panics (`none`). -/
def convertObjectToAstNode : Obj → Option Node
  | .integer value => some (.expr (.integerLiteral ⟨.int, toString value⟩ value))
  | .boolean true => some (.expr (.boolean ⟨.trueKw, "true"⟩ true))
  | .boolean false => some (.expr (.boolean ⟨.falseKw, "false"⟩ false))
  | .quote node => some node
  | _ => none

/-- `eval_program` (`src/src/evaluator/eval.rs` lines 18-32) as a loop over
the statement list, abstracted over the per-statement evaluator `step`
(which captures the environment): the accumulator argument is the
source's `let mut result = None`, overwritten by each statement's object;
on a `ReturnValue`, unwrap it and stop; on an `Error`, stop and return it
unchanged; when the list is exhausted the accumulated result is
returned. -/
def evalProgramStatements (step : Stmt → Heap → Option (Obj × Heap)) :
    StmtList → Option Obj → Heap → Option (Option Obj × Heap)
  | .nil, result, h => some (result, h)
  | .cons s tl, _, h => do
      let (o, h1) ← step s h
      match o with
      | .returnValue value => some (some value, h1)
      | .error message => some (some (.error message), h1)
      | o => evalProgramStatements step tl (some o) h1

/-- `eval_block_statement` (`src/src/evaluator/eval.rs` lines 34-50): like
the program loop, but both `ReturnValue` and `Error` stop the loop and are
returned unchanged (no unwrapping). -/
def evalBlockStatements (step : Stmt → Heap → Option (Obj × Heap)) :
    StmtList → Option Obj → Heap → Option (Option Obj × Heap)
  | .nil, result, h => some (result, h)
  | .cons s tl, _, h => do
      let (o, h1) ← step s h
      if o.objectType == .returnValue || o.objectType == .error then
        some (some o, h1)
      else
        evalBlockStatements step tl (some o) h1

/-- `eval_expressions` (`src/src/evaluator/eval.rs` lines 112-127):
evaluate left to right; if one result is an `Error`, return the
single-element list holding it. -/
def evalExpressionsStep (step : Expr → Heap → Option (Obj × Heap)) :
    ExprList → Heap → Option (List Obj × Heap)
  | .nil, h => some ([], h)
  | .cons e tl, h => do
      let (o, h1) ← step e h
      if o.isError then some ([o], h1)
      else do
        let (rest, h2) ← evalExpressionsStep step tl h1
        some (o :: rest, h2)

/-- Insert into the evaluated-hash association list with `HashMap::insert`
semantics (replace the entry with an equal `HashKey`, else append). -/
def hashPairsInsert (key : HashKey) (keyObj valueObj : Obj) :
    List (HashKey × Obj × Obj) → List (HashKey × Obj × Obj)
  | [] => [(key, keyObj, valueObj)]
  | (k, p) :: tl =>
      if k = key then (key, keyObj, valueObj) :: tl
      else (k, p) :: hashPairsInsert key keyObj valueObj tl

/-- `eval_hash_literal` (`src/src/evaluator/eval.rs` lines 174-229): for
each pair in iteration order, evaluate the key (propagating an `Error`),
then the value (likewise), require the key hashable (`String`, `Integer`
or `Boolean`), and insert under its `HashKey`. -/
def evalHashPairsStep (step : Expr → Heap → Option (Obj × Heap)) :
    PairList → List (HashKey × Obj × Obj) → Heap → Option (Obj × Heap)
  | .nil, acc, h => some (.hash acc, h)
  | .cons k v tl, acc, h => do
      let (ko, h1) ← step k h
      if ko.isError then some (ko, h1)
      else do
        let (vo, h2) ← step v h1
        if vo.isError then some (vo, h2)
        else
          match ko.hashKey with
          | some hk => evalHashPairsStep step tl (hashPairsInsert hk ko vo acc) h2
          | none => some (.error ("unusable as hash key: " ++ ko.objectType.name), h2)

mutual

/-- The `eval_to_object` methods of the expression nodes
(`src/src/ast/expressions.rs`), as one fuel-indexed dispatch; `none` is
fuel exhaustion (or a panic deeper in).  The `CallExpression` case first
checks `self.function.token_literal() == "quote"` (lines 202-222): with no
arguments it returns the `Error` below without touching the environment;
otherwise it passes only the first argument — unevaluated — to `quote`. -/
def evalExprFuel : Nat → Expr → EnvId → Heap → Option (Obj × Heap)
  | 0, _, _, _ => none
  | fuel + 1, e, env, h =>
      match e with
      | .identifier id => some (evalIdentifierObj h env id.value, h)
      | .integerLiteral _ value => some (.integer value, h)
      | .boolean _ value => some (.boolean value, h)
      | .stringLiteral _ value => some (.string value, h)
      | .prefixExpression _ operator right => do
          let (r, h1) ← evalExprFuel fuel right env h
          if r.isError then some (r, h1)
          else some (evalPrefixExpression operator r, h1)
      | .infixExpression _ left operator right => do
          let (l, h1) ← evalExprFuel fuel left env h
          if l.isError then some (l, h1)
          else do
            let (r, h2) ← evalExprFuel fuel right env h1
            if r.isError then some (r, h2)
            else some (evalInfixExpression l operator r, h2)
      | .ifExpression _ condition consequence alternative => do
          let (c, h1) ← evalExprFuel fuel condition env h
          if c.isError then some (c, h1)
          else if isTruthy c then do
            let (o, h2) ← evalBlockFuel fuel consequence env h1
            some (o.getD .null, h2)
          else
            match alternative with
            | some alt => do
                let (o, h2) ← evalBlockFuel fuel alt env h1
                some (o.getD .null, h2)
            | none => some (.null, h1)
      | .functionLiteral _ parameters body => some (.function parameters body env, h)
      | .callExpression _ function arguments =>
          if function.tokenLiteral == "quote" then
            match arguments with
            | .nil => some (.error "`quote` needs to be called with one argument", h)
            | .cons a _ => quoteFuel fuel (.expr a) env h
          else do
            let (f, h1) ← evalExprFuel fuel function env h
            if f.isError then some (f, h1)
            else do
              let (args, h2) ←
                evalExpressionsStep (fun e hh => evalExprFuel fuel e env hh) arguments h1
              if args.length == 1 && (args.headD .null).isError then
                some (args.headD .null, h2)
              else
                applyFunctionFuel fuel f args h2
      | .arrayLiteral _ elements => do
          let (objs, h1) ←
            evalExpressionsStep (fun e hh => evalExprFuel fuel e env hh) elements h
          if objs.length == 1 && (objs.headD .null).objectType == .error then
            some (objs.headD .null, h1)
          else some (.array objs, h1)
      | .indexExpression _ left index => do
          let (l, h1) ← evalExprFuel fuel left env h
          if l.isError then some (l, h1)
          else do
            let (i, h2) ← evalExprFuel fuel index env h1
            if i.isError then some (i, h2)
            else some (evalIndexExpression l i, h2)
      | .hashLiteral _ pairs =>
          evalHashPairsStep (fun e hh => evalExprFuel fuel e env hh) pairs [] h
      | .macroLiteral _ parameters body => some (.macroObj parameters body env, h)
termination_by structural fuel => fuel

/-- The `eval_to_object` methods of the statement nodes
(`src/src/ast/statements.rs`).  `LetStatement` (lines 32-41): evaluate the
value, return it unchanged if it is an `Error`, otherwise
`environment.set(name, value).unwrap_or(Null)` — the statement's own value
is what `HashMap::insert` returned: the object previously bound to the
name in the current frame, or `Null` when the name was unbound.  A
`BlockStatement` evaluating to no object (empty block) is seen as `Null`
by its enclosing statement position in this model. -/
def evalStmtFuel : Nat → Stmt → EnvId → Heap → Option (Obj × Heap)
  | 0, _, _, _ => none
  | fuel + 1, s, env, h =>
      match s with
      | .letStatement _ name value => do
          let (v, h1) ← evalExprFuel fuel value env h
          if v.isError then some (v, h1)
          else
            let (h2, old) := envSet h1 env name.value v
            some (old.getD .null, h2)
      | .returnStatement _ returnValue => do
          let (v, h1) ← evalExprFuel fuel returnValue env h
          if v.isError then some (v, h1)
          else some (.returnValue v, h1)
      | .expressionStatement _ expression => evalExprFuel fuel expression env h
      | .blockStatement b => do
          let (o, h1) ← evalBlockFuel fuel b env h
          some (o.getD .null, h1)
termination_by structural fuel => fuel

/-- `BlockStatement::eval_to_object` delegates to
`eval_block_statement`. -/
def evalBlockFuel : Nat → Block → EnvId → Heap → Option (Option Obj × Heap)
  | 0, _, _, _ => none
  | fuel + 1, .mk _ statements, env, h =>
      evalBlockStatements (fun s hh => evalStmtFuel fuel s env hh) statements none h
termination_by structural fuel => fuel

/-- `apply_function` (`src/src/evaluator/eval.rs` lines 251-269): a
`Function` gets a fresh frame enclosing its captured environment with the
parameters bound positionally (`args[index]` panics — `none` — when there
are fewer arguments than parameters), its body is evaluated and a
`ReturnValue` unwrapped; a `Builtin` is invoked on the argument list;
anything else is a `not a function` error. -/
def applyFunctionFuel : Nat → Obj → List Obj → Heap → Option (Obj × Heap)
  | 0, _, _, _ => none
  | fuel + 1, func, args, h =>
      match func with
      | .function parameters body fenv =>
          if parameters.length ≤ args.length then
            let store := ((parameters.map Ident.value).zip args).foldl
              (fun st pa => (storeInsert pa.1 pa.2 st).1) []
            let (h1, newEnv) := envAlloc h ⟨store, some fenv⟩
            do
              let (o, h2) ← evalBlockFuel fuel body newEnv h1
              match o with
              | some o => some (unwrapReturnValue o, h2)
              | none => none
          else none
      | .builtin name => some (applyBuiltin name args, h)
      | _ => some (.error ("not a function: " ++ func.objectType.name), h)
termination_by structural fuel => fuel

/-- `quote` (`src/src/quote.rs` lines 15-18): wrap the node, after
rewriting its `unquote(..)` calls, into a `Quote` object. -/
def quoteFuel : Nat → Node → EnvId → Heap → Option (Obj × Heap)
  | 0, _, _, _ => none
  | fuel + 1, n, env, h => do
      let (n', h1) ← evalUnquoteCallsFuel fuel n env h
      some (.quote n', h1)
termination_by structural fuel => fuel

/-- `eval_unquote_calls` (`src/src/quote.rs` lines 22-37): `modify` with
the rewriter that, on a call printing as `unquote` with exactly one
argument, evaluates that argument as an ordinary expression and splices
the result back as an AST node. -/
def evalUnquoteCallsFuel : Nat → Node → EnvId → Heap → Option (Node × Heap)
  | 0, _, _, _ => none
  | fuel + 1, n, env, h =>
      modifyNode
        (fun nd hh =>
          if !isUnquoteCall nd then some (nd, hh)
          else
            match nd with
            | .expr (.callExpression _ _ arguments) =>
                if arguments.length == 1 then
                  match arguments with
                  | .cons a _ => do
                      let (o, h1) ← evalExprFuel fuel a env hh
                      let n' ← convertObjectToAstNode o
                      some (n', h1)
                  | .nil => some (nd, hh)
                else some (nd, hh)
            | _ => some (nd, hh))
        n h
termination_by structural fuel => fuel

end

/-- `eval_program` applied to a `Program` node
(`Program::eval_to_object`). -/
def evalProgramFuel : Nat → Program → EnvId → Heap → Option (Option Obj × Heap)
  | 0, _, _, _ => none
  | fuel + 1, p, env, h =>
      evalProgramStatements (fun s hh => evalStmtFuel fuel s env hh) p.statements none h

end Monkey

namespace Monkey

/-- Modelled from the spec: `is_letter` of the missing current lexer —
spec §4.1: identifiers are `[A-Za-z_]+`. -/
def isLetterCh (c : Char) : Bool :=
  c.isAlpha || c == '_'

/-- Modelled from the spec: whitespace discarded between tokens (space,
tab, CR, LF — spec §4.1). -/
def isWhitespaceCh (c : Char) : Bool :=
  c == ' ' || c == '\t' || c == '\n' || c == '\r'

/-- Modelled from the spec: the keyword table of the missing current
`token` module — `fn`, `let`, `true`, `false`, `if`, `else`, `return`,
`macro` (spec §4.1). -/
def lookupIdentifier : String → TokenType
  | "fn" => .function
  | "let" => .letKw
  | "true" => .trueKw
  | "false" => .falseKw
  | "if" => .ifKw
  | "else" => .elseKw
  | "return" => .returnKw
  | "macro" => .macroKw
  | _ => .ident

/-- Modelled from the spec: `Lexer::next_token` of the missing current
lexer (the `lexer.rs` under `src/` is a stale copy without string,
bracket or colon handling).  Spec §4.1: skip whitespace; `==`/`!=` by one
character of lookahead; strings are `"…"` with no escape interpretation —
the literal is exactly the text between the quotes; identifier and digit
runs; unknown characters give `Illegal`; end of input gives an `EOF`
token with empty literal. -/
def nextToken (input : List Char) : Token × List Char :=
  let cs := input.dropWhile isWhitespaceCh
  match cs with
  | [] => (⟨.eof, ""⟩, [])
  | '=' :: '=' :: rest => (⟨.equal, "=="⟩, rest)
  | '=' :: rest => (⟨.assign, "="⟩, rest)
  | '!' :: '=' :: rest => (⟨.notEqual, "!="⟩, rest)
  | '!' :: rest => (⟨.bang, "!"⟩, rest)
  | ';' :: rest => (⟨.semicolon, ";"⟩, rest)
  | '(' :: rest => (⟨.leftParen, "("⟩, rest)
  | ')' :: rest => (⟨.rightParen, ")"⟩, rest)
  | ',' :: rest => (⟨.comma, ","⟩, rest)
  | '+' :: rest => (⟨.plus, "+"⟩, rest)
  | '-' :: rest => (⟨.minus, "-"⟩, rest)
  | '/' :: rest => (⟨.slash, "/"⟩, rest)
  | '*' :: rest => (⟨.asterisk, "*"⟩, rest)
  | '<' :: rest => (⟨.lessThan, "<"⟩, rest)
  | '>' :: rest => (⟨.greaterThan, ">"⟩, rest)
  | ':' :: rest => (⟨.colon, ":"⟩, rest)
  | '\x7b' :: rest => (⟨.leftBrace, "\x7b"⟩, rest)
  | '\x7d' :: rest => (⟨.rightBrace, "\x7d"⟩, rest)
  | '[' :: rest => (⟨.leftBracket, "["⟩, rest)
  | ']' :: rest => (⟨.rightBracket, "]"⟩, rest)
  | '"' :: rest =>
      let content := rest.takeWhile (fun c => c != '"')
      let remaining := (rest.dropWhile (fun c => c != '"')).drop 1
      (⟨.string, ⟨content⟩⟩, remaining)
  | c :: rest =>
      if isLetterCh c then
        let run := (c :: rest).takeWhile isLetterCh
        (⟨lookupIdentifier ⟨run⟩, ⟨run⟩⟩, (c :: rest).dropWhile isLetterCh)
      else if c.isDigit then
        let run := (c :: rest).takeWhile Char.isDigit
        (⟨.int, ⟨run⟩⟩, (c :: rest).dropWhile Char.isDigit)
      else (⟨.illegal, ⟨[c]⟩⟩, rest)

/-- Modelled from the spec: the token stream of a source text — repeated
`next_token` until `EOF` (fuel is an artifact; any fuel beyond the input
length is enough). -/
def tokenize : Nat → List Char → List Token
  | 0, _ => []
  | fuel + 1, cs =>
      let (t, rest) := nextToken cs
      if t.tokenType == .eof then [t] else t :: tokenize fuel rest

/-- The precedence ladder (spec §4.2): lowest to highest with `INDEX`
(`a[…]`) on top. -/
inductive Precedence where
  | lowest
  | equals
  | lessGreater
  | sum
  | product
  | preOp
  | call
  | index
deriving DecidableEq, Repr

/-- Numeric level of a precedence, for the Pratt comparison. -/
def Precedence.toNat : Precedence → Nat
  | .lowest => 1
  | .equals => 2
  | .lessGreater => 3
  | .sum => 4
  | .product => 5
  | .preOp => 6
  | .call => 7
  | .index => 8

/-- Modelled from the spec: the `PRECEDENCES` table of the missing current
parser — operator token kinds to precedence, with `(` at CALL and `[` at
INDEX. -/
def precedences : TokenType → Option Precedence
  | .equal => some .equals
  | .notEqual => some .equals
  | .lessThan => some .lessGreater
  | .greaterThan => some .lessGreater
  | .plus => some .sum
  | .minus => some .sum
  | .slash => some .product
  | .asterisk => some .product
  | .leftParen => some .call
  | .leftBracket => some .index
  | _ => none

/-- Registered prefix handlers, as tags (the `prefix_parse_fns` map). -/
inductive PrefixHandler where
  | parseIdentifier
  | parseIntegerLiteral
  | parseStringLiteral
  | parseBoolean
  | parsePrefixExpression
  | parseGroupedExpression
  | parseIfExpression
  | parseFunctionLiteral
  | parseArrayLiteral
  | parseHashLiteral
  | parseMacroLiteral
deriving DecidableEq, Repr

/-- Registered infix handlers, as tags (the `infix_parse_fns` map). -/
inductive InfixHandler where
  | parseInfixExpression
  | parseCallExpression
  | parseIndexExpression
deriving DecidableEq, Repr

/-- Modelled from the spec: the prefix-handler registration of the missing
current parser (spec §4.2, prefix handlers) — in particular `[` parses an
array literal and `{` a hash literal. -/
def prefixParseFns : TokenType → Option PrefixHandler
  | .ident => some .parseIdentifier
  | .int => some .parseIntegerLiteral
  | .string => some .parseStringLiteral
  | .trueKw => some .parseBoolean
  | .falseKw => some .parseBoolean
  | .bang => some .parsePrefixExpression
  | .minus => some .parsePrefixExpression
  | .leftParen => some .parseGroupedExpression
  | .ifKw => some .parseIfExpression
  | .function => some .parseFunctionLiteral
  | .leftBracket => some .parseArrayLiteral
  | .leftBrace => some .parseHashLiteral
  | .macroKw => some .parseMacroLiteral
  | _ => none

/-- Modelled from the spec: the infix-handler registration (spec §4.2,
infix handlers) — binary operators, `(` for calls, `[` for index
expressions. -/
def infixParseFns : TokenType → Option InfixHandler
  | .plus => some .parseInfixExpression
  | .minus => some .parseInfixExpression
  | .slash => some .parseInfixExpression
  | .asterisk => some .parseInfixExpression
  | .equal => some .parseInfixExpression
  | .notEqual => some .parseInfixExpression
  | .lessThan => some .parseInfixExpression
  | .greaterThan => some .parseInfixExpression
  | .leftParen => some .parseCallExpression
  | .leftBracket => some .parseIndexExpression
  | _ => none

/-- Debug-style rendering of token kinds for parser error messages. -/
def ttName : TokenType → String
  | .illegal => "Illegal"
  | .eof => "EOF"
  | .ident => "Ident"
  | .int => "Int"
  | .string => "String"
  | .assign => "Assign"
  | .plus => "Plus"
  | .minus => "Minus"
  | .bang => "Bang"
  | .asterisk => "Asterisk"
  | .slash => "Slash"
  | .lessThan => "LessThan"
  | .greaterThan => "GreaterThan"
  | .comma => "Comma"
  | .semicolon => "Semicolon"
  | .colon => "Colon"
  | .leftParen => "LeftParen"
  | .rightParen => "RightParen"
  | .leftBrace => "LeftBrace"
  | .rightBrace => "RightBrace"
  | .leftBracket => "LeftBracket"
  | .rightBracket => "RightBracket"
  | .equal => "Equal"
  | .notEqual => "NotEqual"
  | .function => "Function"
  | .letKw => "Let"
  | .trueKw => "True"
  | .falseKw => "False"
  | .ifKw => "If"
  | .elseKw => "Else"
  | .returnKw => "Return"
  | .macroKw => "Macro"

/-- Value of a digit-run literal (`literal.parse::<i64>()` on the digit
runs the lexer produces): `none` when the literal is empty or holds a
non-digit. -/
def digitRunToNat (s : String) : Option Nat :=
  match s.data with
  | [] => none
  | cs =>
      if cs.all Char.isDigit then
        some (cs.foldl (fun acc c => acc * 10 + (c.toNat - 48)) 0)
      else none

/-- The parser's current token: head of the remaining stream (end of input
keeps yielding `EOF`). -/
def curTok (ts : List Token) : Token :=
  ts.headD ⟨.eof, ""⟩

/-- The parser's peek token. -/
def peekTok (ts : List Token) : Token :=
  (ts.drop 1).headD ⟨.eof, ""⟩

/-- `peek_precedence`: the peek token's table entry or LOWEST. -/
def peekPrecedence (ts : List Token) : Precedence :=
  (precedences (peekTok ts).tokenType).getD .lowest

/-- `current_precedence`. -/
def currentPrecedence (ts : List Token) : Precedence :=
  (precedences (curTok ts).tokenType).getD .lowest

/-- `expect_peek(kind)`: advance onto the peek token if it has the
expected kind, else record `expected next token to be <kind>, got <kind>`
(spec §4.2, errors). -/
def expectPeek (kind : TokenType) (ts : List Token) : Except String (List Token) :=
  if (peekTok ts).tokenType = kind then .ok (ts.drop 1)
  else .error ("expected next token to be " ++ ttName kind ++ ", got "
    ++ ttName (peekTok ts).tokenType ++ " instead")

mutual

/-- Modelled from the spec: `parse_expression(prec)` of the missing
current parser — run the prefix handler for the current token kind
(failing with `no prefix parse function for <kind>` if none), then fold
infix handlers while the peek token is not `;` and binds tighter. -/
def parseExpression : Nat → Precedence → List Token → Except String (Expr × List Token)
  | 0, _, _ => .error "parser fuel exhausted"
  | fuel + 1, prec, ts =>
      match prefixParseFns (curTok ts).tokenType with
      | none => .error ("no prefix parse function for " ++ ttName (curTok ts).tokenType)
      | some tag => do
          let (left, ts1) ← runPrefixHandler fuel tag ts
          parseInfixLoop fuel prec left ts1
termination_by structural fuel => fuel

/-- The Pratt loop: `while peek != ';' && prec < peek_precedence`, move to
the peek token and run its infix handler on the accumulated left. -/
def parseInfixLoop : Nat → Precedence → Expr → List Token → Except String (Expr × List Token)
  | 0, _, _, _ => .error "parser fuel exhausted"
  | fuel + 1, prec, left, ts =>
      if (peekTok ts).tokenType ≠ .semicolon
          ∧ prec.toNat < (peekPrecedence ts).toNat then
        match infixParseFns (peekTok ts).tokenType with
        | none => .ok (left, ts)
        | some tag => do
            let (left', ts2) ← runInfixHandler fuel tag left (ts.drop 1)
            parseInfixLoop fuel prec left' ts2
      else .ok (left, ts)
termination_by structural fuel => fuel

/-- Modelled from the spec: the registered prefix handlers (spec §4.2).
`[` builds an `ArrayLiteral` from an expression list terminated by `]`;
`{` builds a `HashLiteral`; `macro` parses like `fn` but builds a
`MacroLiteral`; integer literals must fit `i64`. -/
def runPrefixHandler : Nat → PrefixHandler → List Token → Except String (Expr × List Token)
  | 0, _, _ => .error "parser fuel exhausted"
  | fuel + 1, tag, ts =>
      match tag with
      | .parseIdentifier =>
          let t := curTok ts
          .ok (.identifier ⟨t, t.literal⟩, ts)
      | .parseIntegerLiteral =>
          let t := curTok ts
          match digitRunToNat t.literal with
          | some n =>
              if n < 2 ^ 63 then .ok (.integerLiteral t (Int.ofNat n), ts)
              else .error ("could not parse " ++ t.literal ++ " as i64")
          | none => .error ("could not parse " ++ t.literal ++ " as i64")
      | .parseStringLiteral =>
          let t := curTok ts
          .ok (.stringLiteral t t.literal, ts)
      | .parseBoolean =>
          let t := curTok ts
          .ok (.boolean t (t.tokenType == .trueKw), ts)
      | .parsePrefixExpression => do
          let t := curTok ts
          let (right, ts2) ← parseExpression fuel .preOp (ts.drop 1)
          .ok (.prefixExpression t t.literal right, ts2)
      | .parseGroupedExpression => do
          let (e, ts2) ← parseExpression fuel .lowest (ts.drop 1)
          let ts3 ← expectPeek .rightParen ts2
          .ok (e, ts3)
      | .parseIfExpression => do
          let t := curTok ts
          let ts1 ← expectPeek .leftParen ts
          let (condition, ts3) ← parseExpression fuel .lowest (ts1.drop 1)
          let ts4 ← expectPeek .rightParen ts3
          let ts5 ← expectPeek .leftBrace ts4
          let (consequence, ts6) ← parseBlockStatement fuel ts5
          if (peekTok ts6).tokenType == .elseKw then do
            let ts8 ← expectPeek .leftBrace (ts6.drop 1)
            let (alt, ts9) ← parseBlockStatement fuel ts8
            .ok (.ifExpression t condition consequence (some alt), ts9)
          else
            .ok (.ifExpression t condition consequence none, ts6)
      | .parseFunctionLiteral => do
          let t := curTok ts
          let ts1 ← expectPeek .leftParen ts
          let (parameters, ts2) ← parseFunctionParameters fuel ts1
          let ts3 ← expectPeek .leftBrace ts2
          let (body, ts4) ← parseBlockStatement fuel ts3
          .ok (.functionLiteral t parameters body, ts4)
      | .parseArrayLiteral => do
          let t := curTok ts
          let (elements, ts1) ← parseExpressionList fuel .rightBracket ts
          .ok (.arrayLiteral t elements, ts1)
      | .parseHashLiteral => do
          let t := curTok ts
          let (pairs, ts1) ← parseHashPairsLoop fuel ts
          .ok (.hashLiteral t pairs, ts1)
      | .parseMacroLiteral => do
          let t := curTok ts
          let ts1 ← expectPeek .leftParen ts
          let (parameters, ts2) ← parseFunctionParameters fuel ts1
          let ts3 ← expectPeek .leftBrace ts2
          let (body, ts4) ← parseBlockStatement fuel ts3
          .ok (.macroLiteral t parameters body, ts4)
termination_by structural fuel => fuel

/-- Modelled from the spec: the registered infix handlers (spec §4.2) —
binary operators capture their precedence and parse the right side at it;
`(` builds a `CallExpression`; `[` builds an `IndexExpression` (inner
expression at LOWEST, then expect `]`). -/
def runInfixHandler : Nat → InfixHandler → Expr → List Token → Except String (Expr × List Token)
  | 0, _, _, _ => .error "parser fuel exhausted"
  | fuel + 1, tag, left, ts =>
      match tag with
      | .parseInfixExpression => do
          let t := curTok ts
          let prec := currentPrecedence ts
          let (right, ts2) ← parseExpression fuel prec (ts.drop 1)
          .ok (.infixExpression t left t.literal right, ts2)
      | .parseCallExpression => do
          let t := curTok ts
          let (arguments, ts1) ← parseExpressionList fuel .rightParen ts
          .ok (.callExpression t left arguments, ts1)
      | .parseIndexExpression => do
          let t := curTok ts
          let (index, ts2) ← parseExpression fuel .lowest (ts.drop 1)
          let ts3 ← expectPeek .rightBracket ts2
          .ok (.indexExpression t left index, ts3)
termination_by structural fuel => fuel

/-- Modelled from the spec: the expression list (spec §4.2) — after the
opening delimiter, empty if the next token is the closer; else
comma-separated expressions at LOWEST, then expect the closer. -/
def parseExpressionList : Nat → TokenType → List Token → Except String (ExprList × List Token)
  | 0, _, _ => .error "parser fuel exhausted"
  | fuel + 1, closer, ts =>
      let ts1 := ts.drop 1
      if (curTok ts1).tokenType == closer then .ok (.nil, ts1)
      else parseExpressionListLoop fuel closer ts1
termination_by structural fuel => fuel

/-- The comma loop of the expression list. -/
def parseExpressionListLoop : Nat → TokenType → List Token → Except String (ExprList × List Token)
  | 0, _, _ => .error "parser fuel exhausted"
  | fuel + 1, closer, ts => do
      let (e, ts1) ← parseExpression fuel .lowest ts
      if (peekTok ts1).tokenType == .comma then do
        let (rest, ts3) ← parseExpressionListLoop fuel closer ((ts1.drop 1).drop 1)
        .ok (.cons e rest, ts3)
      else do
        let ts2 ← expectPeek closer ts1
        .ok (.cons e .nil, ts2)
termination_by structural fuel => fuel

/-- Modelled from the spec: hash-literal pairs (spec §4.2) —
comma-separated `key:value` pairs at LOWEST, terminated by `}` (empty
`{}` allowed); on entry the current token is `{`. -/
def parseHashPairsLoop : Nat → List Token → Except String (PairList × List Token)
  | 0, _ => .error "parser fuel exhausted"
  | fuel + 1, ts =>
      if (peekTok ts).tokenType == .rightBrace then do
        let ts1 ← expectPeek .rightBrace ts
        .ok (.nil, ts1)
      else do
        let (k, ts2) ← parseExpression fuel .lowest (ts.drop 1)
        let ts3 ← expectPeek .colon ts2
        let (v, ts5) ← parseExpression fuel .lowest (ts3.drop 1)
        if (peekTok ts5).tokenType == .rightBrace then do
          let ts6 ← expectPeek .rightBrace ts5
          .ok (.cons k v .nil, ts6)
        else do
          let ts6 ← expectPeek .comma ts5
          let (rest, ts7) ← parseHashPairsLoop fuel ts6
          .ok (.cons k v rest, ts7)
termination_by structural fuel => fuel

/-- Modelled from the spec: `fn`/`macro` parameter lists — empty `()` or
comma-separated identifiers, then expect `)`. -/
def parseFunctionParameters : Nat → List Token → Except String (List Ident × List Token)
  | 0, _ => .error "parser fuel exhausted"
  | fuel + 1, ts =>
      let ts1 := ts.drop 1
      if (curTok ts1).tokenType == .rightParen then .ok ([], ts1)
      else parseFunctionParametersLoop fuel ts1

/-- The comma loop of the parameter list. -/
def parseFunctionParametersLoop : Nat → List Token → Except String (List Ident × List Token)
  | 0, _ => .error "parser fuel exhausted"
  | fuel + 1, ts =>
      let t := curTok ts
      let id : Ident := ⟨t, t.literal⟩
      if (peekTok ts).tokenType == .comma then do
        let (rest, ts2) ← parseFunctionParametersLoop fuel ((ts.drop 1).drop 1)
        .ok (id :: rest, ts2)
      else do
        let ts2 ← expectPeek .rightParen ts
        .ok ([id], ts2)
termination_by structural fuel => fuel

/-- Modelled from the spec: statement dispatch — `let`, `return`,
otherwise an expression statement (spec §4.2, top-level loop). -/
def parseStatement : Nat → List Token → Except String (Stmt × List Token)
  | 0, _ => .error "parser fuel exhausted"
  | fuel + 1, ts =>
      match (curTok ts).tokenType with
      | .letKw => parseLetStatement fuel ts
      | .returnKw => parseReturnStatement fuel ts
      | _ => parseExpressionStatement fuel ts
termination_by structural fuel => fuel

/-- Modelled from the spec: `let` — expect `ident`, expect `=`, value at
LOWEST, optional `;`. -/
def parseLetStatement : Nat → List Token → Except String (Stmt × List Token)
  | 0, _ => .error "parser fuel exhausted"
  | fuel + 1, ts => do
      let t := curTok ts
      let ts1 ← expectPeek .ident ts
      let nameTok := curTok ts1
      let ts2 ← expectPeek .assign ts1
      let (value, ts4) ← parseExpression fuel .lowest (ts2.drop 1)
      let ts5 := if (peekTok ts4).tokenType == .semicolon then ts4.drop 1 else ts4
      .ok (.letStatement t ⟨nameTok, nameTok.literal⟩ value, ts5)
termination_by structural fuel => fuel

/-- Modelled from the spec: `return` — value at LOWEST, optional `;`. -/
def parseReturnStatement : Nat → List Token → Except String (Stmt × List Token)
  | 0, _ => .error "parser fuel exhausted"
  | fuel + 1, ts => do
      let t := curTok ts
      let (value, ts2) ← parseExpression fuel .lowest (ts.drop 1)
      let ts3 := if (peekTok ts2).tokenType == .semicolon then ts2.drop 1 else ts2
      .ok (.returnStatement t value, ts3)
termination_by structural fuel => fuel

/-- Modelled from the spec: expression statement — expression at LOWEST,
optional `;`. -/
def parseExpressionStatement : Nat → List Token → Except String (Stmt × List Token)
  | 0, _ => .error "parser fuel exhausted"
  | fuel + 1, ts => do
      let t := curTok ts
      let (e, ts1) ← parseExpression fuel .lowest ts
      let ts2 := if (peekTok ts1).tokenType == .semicolon then ts1.drop 1 else ts1
      .ok (.expressionStatement t e, ts2)
termination_by structural fuel => fuel

/-- Modelled from the spec: a `{ … }` block — statements until `}` or end
of input (a failed statement inside a block is skipped by one token
without recording, mirroring the statement loop's recovery). -/
def parseBlockStatement : Nat → List Token → Except String (Block × List Token)
  | 0, _ => .error "parser fuel exhausted"
  | fuel + 1, ts => do
      let t := curTok ts
      let (statements, ts1) ← parseBlockLoop fuel (ts.drop 1)
      .ok (.mk t statements, ts1)
termination_by structural fuel => fuel

/-- The statement loop of a block. -/
def parseBlockLoop : Nat → List Token → Except String (StmtList × List Token)
  | 0, _ => .error "parser fuel exhausted"
  | fuel + 1, ts =>
      if (curTok ts).tokenType == .rightBrace || (curTok ts).tokenType == .eof then
        .ok (.nil, ts)
      else
        match parseStatement fuel ts with
        | .ok (s, ts1) => do
            let (rest, ts2) ← parseBlockLoop fuel (ts1.drop 1)
            .ok (.cons s rest, ts2)
        | .error _ => parseBlockLoop fuel (ts.drop 1)
termination_by structural fuel => fuel

end

/-- Modelled from the spec: the top-level statement loop — while the
current token is not `EOF`, parse one statement and advance; a failed
statement records its message and the loop advances past it (spec §4.2:
the parser never aborts and always yields a program plus an error
list). -/
def parseProgramLoop : Nat → List Token → StmtList × List String
  | 0, _ => (.nil, [])
  | fuel + 1, ts =>
      if (curTok ts).tokenType == .eof then (.nil, [])
      else
        match parseStatement fuel ts with
        | .ok (s, ts1) =>
            let (rest, errs) := parseProgramLoop fuel (ts1.drop 1)
            (.cons s rest, errs)
        | .error msg =>
            let (rest, errs) := parseProgramLoop fuel (ts.drop 1)
            (rest, msg :: errs)

/-- Modelled from the spec: lex and parse a source text, returning the
program and the parser's error list. -/
def parseSource (fuel : Nat) (input : String) : Program × List String :=
  let ts := tokenize fuel input.toList
  let (statements, errors) := parseProgramLoop fuel ts
  (⟨statements⟩, errors)

end Monkey

namespace Monkey

/-- Casting the `usize` reinterpretation back: for a non-negative `i64`
value the cast is just `toNat`. -/
theorem i64AsUsize_of_nonneg (value : Int) (h0 : 0 ≤ value) (hh : value < 2 ^ 63) :
    i64AsUsize value = value.toNat := by
  unfold i64AsUsize
  rw [Int.emod_eq_of_lt h0 (lt_trans hh (by norm_num))]

/-- C1. For the input `"a * [1, 2, 3, 4][b * c] * d"`, parsing produces a
program with an empty error list whose `string()` equals
`"((a * ([1, 2, 3, 4][(b * c)])) * d)"`; the parser registers the
`[` prefix handler building an `ArrayLiteral` and the `[` infix handler
building an `IndexExpression`, and `[`'s precedence is INDEX, the highest
level of the ladder.  (The parser is modelled from the spec: the current
parser module is missing from `src/`.) -/
theorem c1_array_index_parsing :
    prefixParseFns .leftBracket = some .parseArrayLiteral
    ∧ infixParseFns .leftBracket = some .parseIndexExpression
    ∧ precedences .leftBracket = some .index
    ∧ (∀ t : TokenType, ((precedences t).getD .lowest).toNat ≤ Precedence.index.toNat)
    ∧ (parseSource 99 "a * [1, 2, 3, 4][b * c] * d").2 = []
    ∧ (parseSource 99 "a * [1, 2, 3, 4][b * c] * d").1.string
        = "((a * ([1, 2, 3, 4][(b * c)])) * d)" := by
  refine ⟨rfl, rfl, rfl, ?_, rfl, rfl⟩
  intro t
  cases t <;> decide

/-- C4 counterexample. The claim states `!null` evaluates to
`Boolean::True`; in the code `is_truthy(Null)` is `true`, so the bang
operator yields `Boolean::False`. -/
theorem c4_bang_null_counterexample :
    evalPrefixExpression "!" Obj.null ≠ Obj.boolean true := by
  intro h
  simp [evalPrefixExpression, evalBangOperatorExpression, isTruthy] at h

/-- C4 amended. Applying the bang operator to `Null` produces
`Boolean::False`, because `is_truthy` treats `Null` (like every
non-`False` object) as truthy. -/
theorem c4_bang_null_amended :
    evalPrefixExpression "!" Obj.null = Obj.boolean false
    ∧ isTruthy Obj.null = true := ⟨rfl, rfl⟩

/-- C8. The built-in `push` checks its arity against 2 but formats the
arity error with `want=1` (copied from the unary built-ins), so a
one-argument call produces the self-contradictory message
`wrong number of arguments: got=1, want=1` — not `want=2` as the claim
and the spec's arity rule state. -/
theorem c8_push_arity_message :
    arrayPush [Obj.array []] = .error "wrong number of arguments: got=1, want=1"
    ∧ arrayPush [] = .error "wrong number of arguments: got=0, want=1"
    ∧ arrayPush [Obj.array [], Obj.integer 1, Obj.integer 2]
        = .error "wrong number of arguments: got=3, want=1" := ⟨rfl, rfl, rfl⟩

/-- C9. Indexing an `Array` with an `Integer` index never fails: within
the `i64` range, a negative index or one at least the length yields
`Null`, and otherwise the (cloned) element at that index is returned.
The source compares `elements.len() <= index.value as usize`, and the
`as usize` reinterpretation of a negative `i64` is irrelevant because the
`index.value < 0` disjunct catches it. -/
theorem c9_array_index_safe (elements : List Obj) (value : Int)
    (hlo : -(2 ^ 63) ≤ value) (hhi : value < 2 ^ 63) :
    evalIndexExpression (.array elements) (.integer value) =
      if value < 0 ∨ (elements.length : Int) ≤ value then .null
      else elements.getD value.toNat .null := by
  by_cases hneg : value < 0
  · simp [evalIndexExpression, hneg]
  · push_neg at hneg
    rw [evalIndexExpression, i64AsUsize_of_nonneg value hneg hhi]
    by_cases hlen : (elements.length : Int) ≤ value
    · have : elements.length ≤ value.toNat := by omega
      simp [this, hlen]
    · have : ¬ elements.length ≤ value.toNat := by omega
      simp [this, hlen, not_lt_of_le hneg]

/-- C9 witness: indexing `[7]` at 0 returns the element, and the bounds
hypotheses hold at 0. -/
theorem c9_array_index_safe_witness :
    evalIndexExpression (.array [Obj.integer 7]) (.integer 0) =
      if (0 : Int) < 0 ∨ ((1 : Nat) : Int) ≤ 0 then .null
      else [Obj.integer 7].getD (Int.toNat 0) .null :=
  c9_array_index_safe [Obj.integer 7] 0 (by decide) (by decide)

end Monkey

namespace Monkey

/-- Lexing at an opening quote: one step of `next_token` on `"` followed
by arbitrary input takes the run up to the next quote as the literal and
resumes after the closing quote. -/
theorem nextToken_quote (xs : List Char) :
    nextToken ('"' :: xs) =
      (⟨.string, ⟨xs.takeWhile (fun c => c != '"')⟩⟩,
        (xs.dropWhile (fun c => c != '"')).drop 1) := rfl

/-- A quote-free run is taken whole. -/
theorem takeWhile_append_quote (s rest : List Char) (hs : ∀ c ∈ s, c ≠ '"') :
    (s ++ '"' :: rest).takeWhile (fun c => c != '"') = s := by
  induction s with
  | nil => simp
  | cons c tl ih =>
      have hc : c ≠ '"' := hs c (by simp)
      simp only [List.cons_append, List.takeWhile_cons]
      simp [hc, ih (fun x hx => hs x (by simp [hx]))]

/-- Dropping a quote-free run stops at the closing quote. -/
theorem dropWhile_append_quote (s rest : List Char) (hs : ∀ c ∈ s, c ≠ '"') :
    (s ++ '"' :: rest).dropWhile (fun c => c != '"') = '"' :: rest := by
  induction s with
  | nil => simp
  | cons c tl ih =>
      have hc : c ≠ '"' := hs c (by simp)
      simp only [List.cons_append, List.dropWhile_cons]
      simp [hc, ih (fun x hx => hs x (by simp [hx]))]

/-- C2. A double-quoted string literal is lexed as a single `String`-kind
token whose literal is exactly the text between the quotes, with no escape
interpretation, and lexing resumes right after the closing quote.  (The
lexer is modelled from the spec: the current lexer module is missing from
`src/`.) -/
theorem c2_string_literal_token (s rest : List Char) (hs : ∀ c ∈ s, c ≠ '"') :
    nextToken ('"' :: (s ++ '"' :: rest)) = (⟨.string, ⟨s⟩⟩, rest) := by
  rw [nextToken_quote, takeWhile_append_quote s rest hs, dropWhile_append_quote s rest hs]
  simp

/-- C2 witness: the literal `"foo bar"` followed by `;` lexes to a single
`String` token with literal `foo bar`, resuming at the `;`. -/
theorem c2_string_literal_token_witness :
    nextToken ('"' :: (['f', 'o', 'o', ' ', 'b', 'a', 'r'] ++ '"' :: [';'])) =
      (⟨.string, ⟨['f', 'o', 'o', ' ', 'b', 'a', 'r']⟩⟩, [';']) :=
  c2_string_literal_token ['f', 'o', 'o', ' ', 'b', 'a', 'r'] [';'] (by decide)

/-- The integer literal `1`, as built by the repository's own
`tests/ast.rs` `one()` helper (empty token literal). -/
def oneLit : Expr := .integerLiteral ⟨.int, ""⟩ 1

/-- The integer literal `2` (`two()` in `tests/ast.rs`). -/
def twoLit : Expr := .integerLiteral ⟨.int, ""⟩ 2

/-- The `turn_one_into_two` rewriter of `tests/ast.rs`: map the integer
literal 1 to 2, leave every other node unchanged. -/
def turnOneIntoTwo : Node → Node
  | .expr (.integerLiteral tok 1) => .expr (.integerLiteral tok 2)
  | n => n

/-- Lift a pure rewriter to a heap-threaded `ModFn`. -/
def liftMod (g : Node → Node) : ModFn :=
  fun n h => some (g n, h)

/-- C6 counterexample. `modify` has no branch for `CallExpression`; on
`add(1)` with the `turn_one_into_two` rewriter the argument slot is left
untouched (the claim demands it become `2`). -/
theorem c6_modify_counterexample :
    modifyNode (liftMod turnOneIntoTwo)
      (.expr (.callExpression ⟨.leftParen, "("⟩ (.identifier ⟨⟨.ident, "add"⟩, "add"⟩)
        (.cons oneLit .nil))) []
      = some (.expr (.callExpression ⟨.leftParen, "("⟩ (.identifier ⟨⟨.ident, "add"⟩, "add"⟩)
        (.cons oneLit .nil)), [])
    ∧ ExprList.cons oneLit .nil ≠ ExprList.cons twoLit .nil := by
  refine ⟨rfl, ?_⟩
  intro h
  simp [oneLit, twoLit] at h

/-- C6 amended. `modify(node, f)` recurses into and stores `f`-rewritten
child slots only for the node kinds it dispatches on (program,
let/return/expression statements, blocks, prefix/infix/index/if
expressions, function literals); a `CallExpression`'s callee and arguments
are not visited at all; `ArrayLiteral` (and `HashLiteral`) children are
recursed into but the application of `f` to each child is discarded;
finally `f` is applied to the node itself. -/
theorem c6_modify_amended :
    (∀ (f : ModFn) (tok : Token) (fn : Expr) (args : ExprList) (h : Heap),
        modifyNode f (.expr (.callExpression tok fn args)) h
          = f (.expr (.callExpression tok fn args)) h)
    ∧ (∀ (tok : Token) (h : Heap),
        modifyNode (liftMod turnOneIntoTwo)
          (.expr (.infixExpression tok oneLit "+" oneLit)) h
          = some (.expr (.infixExpression tok twoLit "+" twoLit), h))
    ∧ (∀ (tok : Token) (h : Heap),
        modifyNode (liftMod turnOneIntoTwo)
          (.expr (.arrayLiteral tok (.cons oneLit (.cons oneLit .nil)))) h
          = some (.expr (.arrayLiteral tok (.cons oneLit (.cons oneLit .nil))), h)) :=
  ⟨fun _ _ _ _ _ => rfl, fun _ _ => rfl, fun _ _ => rfl⟩

/-- One iteration order of the pairs `1: 2` and `3: 4`. -/
def pairsOrderA : PairList :=
  .cons (.integerLiteral ⟨.int, "1"⟩ 1) (.integerLiteral ⟨.int, "2"⟩ 2)
    (.cons (.integerLiteral ⟨.int, "3"⟩ 3) (.integerLiteral ⟨.int, "4"⟩ 4) .nil)

/-- The other iteration order of the same pairs. -/
def pairsOrderB : PairList :=
  .cons (.integerLiteral ⟨.int, "3"⟩ 3) (.integerLiteral ⟨.int, "4"⟩ 4)
    (.cons (.integerLiteral ⟨.int, "1"⟩ 1) (.integerLiteral ⟨.int, "2"⟩ 2) .nil)

/-- C7 counterexample. `HashLiteral` stores its pairs in an address-keyed
`HashMap` with no canonical iteration order; `string()` prints in
iteration order, so two legitimate iteration orders of the *same* pair
set print differently — the text is not determined by the insertion
sequence, contradicting the claimed ordered-sequence determinism. -/
theorem c7_hash_string_counterexample :
    pairsOrderA.toList.Perm pairsOrderB.toList
    ∧ Expr.string (.hashLiteral ⟨.leftBrace, "\x7b"⟩ pairsOrderA)
        ≠ Expr.string (.hashLiteral ⟨.leftBrace, "\x7b"⟩ pairsOrderB) := by
  constructor
  · exact List.Perm.swap _ _ _
  · decide

/-- Entry strings are the mapped pair list. -/
theorem entryStrings_eq_map :
    (p : PairList) →
      p.entryStrings = p.toList.map (fun kv => kv.1.string ++ ": " ++ kv.2.string)
  | .nil => rfl
  | .cons k v tl => by
      simp [PairList.entryStrings, PairList.toList, entryStrings_eq_map tl]

/-- C7 amended. What is insertion-determined is the multiset of printed
`key: value` entries: pair lists that are permutations of each other (two
iteration orders of one map) produce permuted entry lists — but the
concatenated `string()` text depends on the iteration order, which the
address-keyed `HashMap` does not fix. -/
theorem c7_hash_entries_amended (p q : PairList) (h : p.toList.Perm q.toList) :
    p.entryStrings.Perm q.entryStrings := by
  rw [entryStrings_eq_map, entryStrings_eq_map]
  exact h.map _

/-- C7 witness: the two iteration orders above have permuted entry
lists. -/
theorem c7_hash_entries_amended_witness :
    pairsOrderA.entryStrings.Perm pairsOrderB.entryStrings :=
  c7_hash_entries_amended pairsOrderA pairsOrderB (List.Perm.swap _ _ _)

end Monkey

namespace Monkey

/-- `HashMap::insert` returns the previous binding: the second component
of `storeInsert` is the lookup of the name in the old store. -/
theorem storeInsert_snd (name : String) (v : Obj) :
    (store : List (String × Obj)) → (storeInsert name v store).2 = store.lookup name
  | [] => rfl
  | (k, w) :: tl => by
      by_cases hk : k = name
      · subst hk
        simp [storeInsert, List.lookup]
      · have hkb : (name == k) = false := beq_eq_false_iff_ne.mpr (Ne.symm hk)
        simp [storeInsert, hk, List.lookup, hkb, storeInsert_snd name v tl]

/-- After `storeInsert`, the name is bound to the inserted value. -/
theorem storeInsert_lookup_self (name : String) (v : Obj) :
    (store : List (String × Obj)) →
      List.lookup name (storeInsert name v store).1 = some v
  | [] => by simp [storeInsert, List.lookup]
  | (k, w) :: tl => by
      by_cases hk : k = name
      · subst hk
        simp [storeInsert, List.lookup]
      · have hkb : (name == k) = false := beq_eq_false_iff_ne.mpr (Ne.symm hk)
        simp [storeInsert, hk, List.lookup, hkb, storeInsert_lookup_self name v tl]

/-- C3 counterexample. With `x` already bound to `1`, evaluating
`let x = 5;` rebinds `x` but the statement itself evaluates to the
*previous* value `1` (`HashMap::insert`'s return, unwrapped by
`.unwrap_or(Null)`), not to `Null` as the claim states. -/
theorem c3_let_rebind_counterexample :
    evalStmtFuel 5 (.letStatement ⟨.letKw, "let"⟩ ⟨⟨.ident, "x"⟩, "x"⟩
        (.integerLiteral ⟨.int, "5"⟩ 5)) 0 [⟨[("x", .integer 1)], none⟩]
      = some (.integer 1, [⟨[("x", .integer 5)], none⟩])
    ∧ Obj.integer 1 ≠ Obj.null := by
  refine ⟨rfl, ?_⟩
  intro h
  simp at h

/-- C3 amended. Evaluating a `LetStatement` evaluates the value and
returns it unchanged if it is an `Error`; otherwise it binds the name in
the current frame (lookup afterwards yields the new value) and the
statement itself evaluates to the object previously bound to that name in
the current frame when there was one — and to `Null` only when the name
was unbound there. -/
theorem c3_let_statement_amended (fuel : Nat) (tok : Token) (name : Ident)
    (value : Expr) (env : EnvId) (h h1 : Heap) (o : Obj) (frame : Frame)
    (hv : evalExprFuel fuel value env h = some (o, h1))
    (hframe : h1.get? env = some frame) :
    (o.isError = true →
      evalStmtFuel (fuel + 1) (.letStatement tok name value) env h = some (o, h1))
    ∧ (o.isError = false →
      evalStmtFuel (fuel + 1) (.letStatement tok name value) env h
        = some ((frame.store.lookup name.value).getD .null,
            h1.set env { frame with store := (storeInsert name.value o frame.store).1 })
      ∧ List.lookup name.value (storeInsert name.value o frame.store).1 = some o) := by
  constructor
  · intro he
    simp [evalStmtFuel, hv, he]
  · intro he
    refine ⟨?_, storeInsert_lookup_self name.value o frame.store⟩
    have hframe' : h1[env]? = some frame := by
      rw [← List.get?_eq_getElem?]
      exact hframe
    simp [evalStmtFuel, hv, he, envSet, hframe', storeInsert_snd]

/-- C3 witness: rebinding `x` (bound to `1`) with `let x = 5` returns the
old value `1` and leaves `x` bound to `5` in the current frame. -/
theorem c3_let_statement_amended_witness :
    ((Obj.integer 5).isError = true →
      evalStmtFuel 5 (.letStatement ⟨.letKw, "let"⟩ ⟨⟨.ident, "x"⟩, "x"⟩
          (.integerLiteral ⟨.int, "5"⟩ 5)) 0 [⟨[("x", .integer 1)], none⟩]
        = some (.integer 5, [⟨[("x", .integer 1)], none⟩]))
    ∧ ((Obj.integer 5).isError = false →
      evalStmtFuel 5 (.letStatement ⟨.letKw, "let"⟩ ⟨⟨.ident, "x"⟩, "x"⟩
          (.integerLiteral ⟨.int, "5"⟩ 5)) 0 [⟨[("x", .integer 1)], none⟩]
        = some ((List.lookup "x" [("x", Obj.integer 1)]).getD .null,
            [⟨[("x", .integer 1)], none⟩].set 0
              { store := (storeInsert "x" (Obj.integer 5) [("x", Obj.integer 1)]).1,
                outer := none })
      ∧ List.lookup "x" (storeInsert "x" (Obj.integer 5) [("x", Obj.integer 1)]).1
          = some (Obj.integer 5)) :=
  c3_let_statement_amended 4 ⟨.letKw, "let"⟩ ⟨⟨.ident, "x"⟩, "x"⟩
    (.integerLiteral ⟨.int, "5"⟩ 5) 0 [⟨[("x", .integer 1)], none⟩]
    [⟨[("x", .integer 1)], none⟩] (.integer 5) ⟨[("x", .integer 1)], none⟩ rfl rfl

/-- C10. When the callee's token literal is `quote`: a zero-argument call
returns the `Error` with message
``quote` needs to be called with one argument` and leaves the heap (and
so every environment) unchanged; with at least one argument, the result
is `quote` applied to the first argument only — the remaining arguments
are never evaluated (the result does not depend on them), and the wrapped
argument itself is not evaluated but passed to `quote`, which only
rewrites the `unquote(..)` calls inside it. -/
theorem c10_quote_special_form (fuel : Nat) (tok : Token) (fn : Expr)
    (env : EnvId) (h : Heap) (hq : fn.tokenLiteral = "quote") :
    (evalExprFuel (fuel + 1) (.callExpression tok fn .nil) env h
        = some (.error "`quote` needs to be called with one argument", h))
    ∧ (∀ (a : Expr) (rest rest' : ExprList),
        evalExprFuel (fuel + 1) (.callExpression tok fn (.cons a rest)) env h
          = evalExprFuel (fuel + 1) (.callExpression tok fn (.cons a rest')) env h)
    ∧ (∀ (a : Expr) (rest : ExprList),
        evalExprFuel (fuel + 1) (.callExpression tok fn (.cons a rest)) env h
          = quoteFuel fuel (.expr a) env h) := by
  refine ⟨?_, fun a rest rest' => ?_, fun a rest => ?_⟩ <;> simp [evalExprFuel, hq]

/-- C10 witness: with callee the identifier `quote` (token literal
`quote`), the zero-argument error and the first-argument-only behavior
hold concretely. -/
theorem c10_quote_special_form_witness :
    (evalExprFuel 4 (.callExpression ⟨.leftParen, "("⟩
          (.identifier ⟨⟨.ident, "quote"⟩, "quote"⟩) .nil) 0 []
        = some (.error "`quote` needs to be called with one argument", []))
    ∧ (∀ (a : Expr) (rest rest' : ExprList),
        evalExprFuel 4 (.callExpression ⟨.leftParen, "("⟩
            (.identifier ⟨⟨.ident, "quote"⟩, "quote"⟩) (.cons a rest)) 0 []
          = evalExprFuel 4 (.callExpression ⟨.leftParen, "("⟩
              (.identifier ⟨⟨.ident, "quote"⟩, "quote"⟩) (.cons a rest')) 0 [])
    ∧ (∀ (a : Expr) (rest : ExprList),
        evalExprFuel 4 (.callExpression ⟨.leftParen, "("⟩
            (.identifier ⟨⟨.ident, "quote"⟩, "quote"⟩) (.cons a rest)) 0 []
          = quoteFuel 3 (.expr a) 0 []) :=
  c10_quote_special_form 3 ⟨.leftParen, "("⟩
    (.identifier ⟨⟨.ident, "quote"⟩, "quote"⟩) 0 [] rfl

end Monkey

namespace Monkey

/-- An object that stops a statement loop: `ReturnValue` or `Error` (the
two tags tested by `eval_program` and `eval_block_statement`). -/
def isSpecialObj (o : Obj) : Bool :=
  o.objectType == .returnValue || o.objectType == .error

/-- The straight-line trace of a statement sequence: every statement
evaluated in order with the heap threaded through, with no
short-circuiting.  Used to state what the (short-circuiting) loops return
in terms of the per-statement objects. -/
def stmtTrace (step : Stmt → Heap → Option (Obj × Heap)) :
    StmtList → Heap → Option (List Obj)
  | .nil, _ => some []
  | .cons s tl, h => do
      let (o, h1) ← step s h
      let rest ← stmtTrace step tl h1
      some (o :: rest)

/-- The spec's description of a `Program` run, stated over the trace: an
empty sequence produces no object; otherwise, if some prefix of
non-special objects is followed by a first `ReturnValue`, the result is
its unwrapped inner object, and by a first `Error`, that error unchanged;
and when no statement produces a special object the result is the last
statement's object. -/
def programResultSpec (os : List Obj) (result : Option Obj) : Prop :=
  (os = [] ∧ result = none)
  ∨ (∃ pre x post, os = pre ++ x :: post
      ∧ (∀ o ∈ pre, isSpecialObj o = false)
      ∧ ((∃ v, x = Obj.returnValue v ∧ result = some v)
        ∨ (x.objectType = .error ∧ result = some x)))
  ∨ ((∀ o ∈ os, isSpecialObj o = false) ∧ os ≠ [] ∧ result = os.getLast?)

/-- The spec's description of a `BlockStatement` run: as for a program,
but the first special object — `ReturnValue` or `Error` — is returned
unchanged (never unwrapped mid-block). -/
def blockResultSpec (os : List Obj) (result : Option Obj) : Prop :=
  (os = [] ∧ result = none)
  ∨ (∃ pre x post, os = pre ++ x :: post
      ∧ (∀ o ∈ pre, isSpecialObj o = false)
      ∧ isSpecialObj x = true ∧ result = some x)
  ∨ ((∀ o ∈ os, isSpecialObj o = false) ∧ os ≠ [] ∧ result = os.getLast?)

/-- A statement whose object is a `ReturnValue` makes the program loop
stop and unwrap. -/
theorem evalProgramStatements_cons_return (step : Stmt → Heap → Option (Obj × Heap))
    (s : Stmt) (tl : StmtList) (acc : Option Obj) (h : Heap) (v : Obj) (h1 : Heap)
    (hstep : step s h = some (.returnValue v, h1)) :
    evalProgramStatements step (.cons s tl) acc h = some (some v, h1) := by
  simp [evalProgramStatements, hstep]

/-- A statement whose object is an `Error` makes the program loop stop
and return it unchanged. -/
theorem evalProgramStatements_cons_error (step : Stmt → Heap → Option (Obj × Heap))
    (s : Stmt) (tl : StmtList) (acc : Option Obj) (h : Heap) (m : String) (h1 : Heap)
    (hstep : step s h = some (.error m, h1)) :
    evalProgramStatements step (.cons s tl) acc h = some (some (.error m), h1) := by
  simp [evalProgramStatements, hstep]

/-- A non-special object just becomes the loop's accumulated result. -/
theorem evalProgramStatements_cons_nonspecial (step : Stmt → Heap → Option (Obj × Heap))
    (s : Stmt) (tl : StmtList) (acc : Option Obj) (h : Heap) (o : Obj) (h1 : Heap)
    (hstep : step s h = some (o, h1)) (hns : isSpecialObj o = false) :
    evalProgramStatements step (.cons s tl) acc h
      = evalProgramStatements step tl (some o) h1 := by
  cases o <;> simp_all [evalProgramStatements, isSpecialObj, Obj.objectType, hstep]

/-- A special object makes the block loop stop and return it unchanged. -/
theorem evalBlockStatements_cons_special (step : Stmt → Heap → Option (Obj × Heap))
    (s : Stmt) (tl : StmtList) (acc : Option Obj) (h : Heap) (o : Obj) (h1 : Heap)
    (hstep : step s h = some (o, h1)) (hsp : isSpecialObj o = true) :
    evalBlockStatements step (.cons s tl) acc h = some (some o, h1) := by
  simp only [evalBlockStatements, hstep, Option.bind_eq_bind, Option.some_bind]
  rw [show (o.objectType == ObjectType.returnValue || o.objectType == ObjectType.error)
    = isSpecialObj o from rfl, hsp]
  simp

/-- A non-special object lets the block loop continue. -/
theorem evalBlockStatements_cons_nonspecial (step : Stmt → Heap → Option (Obj × Heap))
    (s : Stmt) (tl : StmtList) (acc : Option Obj) (h : Heap) (o : Obj) (h1 : Heap)
    (hstep : step s h = some (o, h1)) (hns : isSpecialObj o = false) :
    evalBlockStatements step (.cons s tl) acc h
      = evalBlockStatements step tl (some o) h1 := by
  simp only [evalBlockStatements, hstep, Option.bind_eq_bind, Option.some_bind]
  rw [show (o.objectType == ObjectType.returnValue || o.objectType == ObjectType.error)
    = isSpecialObj o from rfl, hns]
  simp

end Monkey

namespace Monkey

/-- The program loop, characterized over the straight-line trace, for any
accumulated result. -/
theorem evalProgramStatements_trace (step : Stmt → Heap → Option (Obj × Heap)) :
    (ss : StmtList) → (h : Heap) → (os : List Obj) → (acc : Option Obj) →
      stmtTrace step ss h = some os →
      ∃ r h', evalProgramStatements step ss acc h = some (r, h')
        ∧ ((os = [] ∧ r = acc)
          ∨ (∃ pre x post, os = pre ++ x :: post
              ∧ (∀ o ∈ pre, isSpecialObj o = false)
              ∧ ((∃ v, x = Obj.returnValue v ∧ r = some v)
                ∨ (x.objectType = .error ∧ r = some x)))
          ∨ ((∀ o ∈ os, isSpecialObj o = false) ∧ os ≠ [] ∧ r = os.getLast?))
  | .nil, h, os, acc, ht => by
      simp only [stmtTrace, Option.some.injEq] at ht
      exact ⟨acc, h, rfl, Or.inl ⟨ht.symm, rfl⟩⟩
  | .cons s tl, h, os, acc, ht => by
      cases hstep : step s h with
      | none => simp [stmtTrace, hstep] at ht
      | some p =>
        obtain ⟨o, h1⟩ := p
        cases htl : stmtTrace step tl h1 with
        | none => simp [stmtTrace, hstep, htl] at ht
        | some rest =>
          have hos : os = o :: rest := by
            simp only [stmtTrace, hstep, htl, Option.bind_eq_bind, Option.some_bind,
              Option.some.injEq] at ht
            exact ht.symm
          subst hos
          cases hspo : isSpecialObj o with
          | false =>
              obtain ⟨r, h', heval, hdisj⟩ :=
                evalProgramStatements_trace step tl h1 rest (some o) htl
              refine ⟨r, h', ?_, ?_⟩
              · rw [evalProgramStatements_cons_nonspecial step s tl acc h o h1 hstep hspo]
                exact heval
              · rcases hdisj with ⟨hrest, hr⟩ | ⟨pre, x, post, hsplit, hpre, hx⟩ | ⟨hall, hne, hr⟩
                · subst hrest
                  subst hr
                  refine Or.inr (Or.inr ⟨?_, by simp, by simp⟩)
                  intro z hz
                  simp only [List.mem_cons, List.not_mem_nil, or_false] at hz
                  subst hz
                  exact hspo
                · subst hsplit
                  refine Or.inr (Or.inl ⟨o :: pre, x, post, by simp, ?_, hx⟩)
                  intro z hz
                  rcases List.mem_cons.mp hz with hz | hz
                  · subst hz
                    exact hspo
                  · exact hpre z hz
                · refine Or.inr (Or.inr ⟨?_, by simp, ?_⟩)
                  · intro z hz
                    rcases List.mem_cons.mp hz with hz | hz
                    · subst hz
                      exact hspo
                    · exact hall z hz
                  · cases rest with
                    | nil => exact absurd rfl hne
                    | cons r0 rtl =>
                        rw [List.getLast?_cons_cons]
                        exact hr
          | true =>
              cases o with
              | returnValue v =>
                  exact ⟨some v, h1,
                    evalProgramStatements_cons_return step s tl acc h v h1 hstep,
                    Or.inr (Or.inl ⟨[], .returnValue v, rest, by simp, by simp,
                      Or.inl ⟨v, rfl, rfl⟩⟩)⟩
              | error m =>
                  exact ⟨some (.error m), h1,
                    evalProgramStatements_cons_error step s tl acc h m h1 hstep,
                    Or.inr (Or.inl ⟨[], .error m, rest, by simp, by simp,
                      Or.inr ⟨rfl, rfl⟩⟩)⟩
              | integer v => simp [isSpecialObj, Obj.objectType] at hspo
              | boolean v => simp [isSpecialObj, Obj.objectType] at hspo
              | null => simp [isSpecialObj, Obj.objectType] at hspo
              | function p b e => simp [isSpecialObj, Obj.objectType] at hspo
              | string v => simp [isSpecialObj, Obj.objectType] at hspo
              | builtin n => simp [isSpecialObj, Obj.objectType] at hspo
              | array els => simp [isSpecialObj, Obj.objectType] at hspo
              | hash prs => simp [isSpecialObj, Obj.objectType] at hspo
              | quote n => simp [isSpecialObj, Obj.objectType] at hspo
              | macroObj p b e => simp [isSpecialObj, Obj.objectType] at hspo

/-- The block loop, characterized over the straight-line trace, for any
accumulated result: the first special object is returned unchanged. -/
theorem evalBlockStatements_trace (step : Stmt → Heap → Option (Obj × Heap)) :
    (ss : StmtList) → (h : Heap) → (os : List Obj) → (acc : Option Obj) →
      stmtTrace step ss h = some os →
      ∃ r h', evalBlockStatements step ss acc h = some (r, h')
        ∧ ((os = [] ∧ r = acc)
          ∨ (∃ pre x post, os = pre ++ x :: post
              ∧ (∀ o ∈ pre, isSpecialObj o = false)
              ∧ isSpecialObj x = true ∧ r = some x)
          ∨ ((∀ o ∈ os, isSpecialObj o = false) ∧ os ≠ [] ∧ r = os.getLast?))
  | .nil, h, os, acc, ht => by
      simp only [stmtTrace, Option.some.injEq] at ht
      exact ⟨acc, h, rfl, Or.inl ⟨ht.symm, rfl⟩⟩
  | .cons s tl, h, os, acc, ht => by
      cases hstep : step s h with
      | none => simp [stmtTrace, hstep] at ht
      | some p =>
        obtain ⟨o, h1⟩ := p
        cases htl : stmtTrace step tl h1 with
        | none => simp [stmtTrace, hstep, htl] at ht
        | some rest =>
          have hos : os = o :: rest := by
            simp only [stmtTrace, hstep, htl, Option.bind_eq_bind, Option.some_bind,
              Option.some.injEq] at ht
            exact ht.symm
          subst hos
          cases hspo : isSpecialObj o with
          | false =>
              obtain ⟨r, h', heval, hdisj⟩ :=
                evalBlockStatements_trace step tl h1 rest (some o) htl
              refine ⟨r, h', ?_, ?_⟩
              · rw [evalBlockStatements_cons_nonspecial step s tl acc h o h1 hstep hspo]
                exact heval
              · rcases hdisj with ⟨hrest, hr⟩ | ⟨pre, x, post, hsplit, hpre, hx⟩ | ⟨hall, hne, hr⟩
                · subst hrest
                  subst hr
                  refine Or.inr (Or.inr ⟨?_, by simp, by simp⟩)
                  intro z hz
                  simp only [List.mem_cons, List.not_mem_nil, or_false] at hz
                  subst hz
                  exact hspo
                · subst hsplit
                  refine Or.inr (Or.inl ⟨o :: pre, x, post, by simp, ?_, hx⟩)
                  intro z hz
                  rcases List.mem_cons.mp hz with hz | hz
                  · subst hz
                    exact hspo
                  · exact hpre z hz
                · refine Or.inr (Or.inr ⟨?_, by simp, ?_⟩)
                  · intro z hz
                    rcases List.mem_cons.mp hz with hz | hz
                    · subst hz
                      exact hspo
                    · exact hall z hz
                  · cases rest with
                    | nil => exact absurd rfl hne
                    | cons r0 rtl =>
                        rw [List.getLast?_cons_cons]
                        exact hr
          | true =>
              exact ⟨some o, h1,
                evalBlockStatements_cons_special step s tl acc h o h1 hstep hspo,
                Or.inr (Or.inl ⟨[], o, rest, by simp, by simp, hspo, rfl⟩)⟩

/-- C5. For every statement sequence (and any per-statement evaluator
with successful straight-line trace `os`): `eval_program` stops at the
first `ReturnValue`, returning its unwrapped inner object, or at the
first `Error`, returning it unchanged, and otherwise returns the last
statement's object; `eval_block_statement` stops at the first
`ReturnValue` or `Error` and returns that object unchanged — never
unwrapping a `ReturnValue` mid-block — and otherwise returns the last
statement's object. -/
theorem c5_program_block_propagation (step : Stmt → Heap → Option (Obj × Heap))
    (ss : StmtList) (h : Heap) (os : List Obj)
    (ht : stmtTrace step ss h = some os) :
    (∃ r h', evalProgramStatements step ss none h = some (r, h')
      ∧ programResultSpec os r)
    ∧ (∃ r h', evalBlockStatements step ss none h = some (r, h')
      ∧ blockResultSpec os r) := by
  constructor
  · obtain ⟨r, h', heval, hdisj⟩ := evalProgramStatements_trace step ss h os none ht
    exact ⟨r, h', heval, hdisj⟩
  · obtain ⟨r, h', heval, hdisj⟩ := evalBlockStatements_trace step ss h os none ht
    exact ⟨r, h', heval, hdisj⟩

/-- The two-statement sequence `return 10; 9`. -/
def returnThenNine : StmtList :=
  .cons (.returnStatement ⟨.returnKw, "return"⟩ (.integerLiteral ⟨.int, "10"⟩ 10))
    (.cons (.expressionStatement ⟨.int, "9"⟩ (.integerLiteral ⟨.int, "9"⟩ 9)) .nil)

/-- C5 witness: on `return 10; 9` the trace is
`[ReturnValue 10, Integer 9]`, the program run unwraps to `10`, the block
run keeps the `ReturnValue` wrapper. -/
theorem c5_program_block_propagation_witness :
    (∃ r h', evalProgramStatements (fun s hh => evalStmtFuel 5 s 0 hh) returnThenNine
        none [⟨[], none⟩]
      = some (r, h') ∧ programResultSpec [.returnValue (.integer 10), .integer 9] r)
    ∧ (∃ r h', evalBlockStatements (fun s hh => evalStmtFuel 5 s 0 hh) returnThenNine
        none [⟨[], none⟩]
      = some (r, h') ∧ blockResultSpec [.returnValue (.integer 10), .integer 9] r) :=
  c5_program_block_propagation (fun s hh => evalStmtFuel 5 s 0 hh) returnThenNine
    [⟨[], none⟩] [.returnValue (.integer 10), .integer 9] rfl

end Monkey
